import Mathlib

/-!
Shallow embedding of the xv6 demand-paging / swap subsystem (`pageswap.c`).

Machine words are modelled as `Nat`; all the C arithmetic in this file acts on
values far below `2^32`, so unsigned wraparound never occurs and `Nat` agrees
with the C `uint`/`int` semantics on every reachable value.  The C bitwise
complement `~m` on a 32-bit word is modelled as `0xFFFFFFFF ^^^ m`.

A page directory is modelled leaf-wise: `PgDir := Nat → Option Nat` maps the
page number `va / PGSIZE` to the leaf PTE (`none` models `walkpgdir` returning
null, i.e. no page-table page; `some 0` is a zero leaf).  Disk and physical
memory are byte functions.  The kernel free list (`kmem.freelist`) is a list of
physical page addresses, so `countpages` is its length.  Each C function that
mutates state is a Lean function returning the updated state.
-/

namespace PageSwap

/-! ## Constants (from mmu.h / param.h / fs.h and pageswap.c) -/

def NSLOTS : Nat := 800
def PGSIZE : Nat := 4096
def BSIZE : Nat := 512
def KERNBASE : Nat := 0x80000000
/-- Number of page-sized strides in `[0, KERNBASE)`: the bound of every
`for(i = 0; i < KERNBASE; i += PGSIZE)` loop, counted in pages. -/
def NPGS : Nat := KERNBASE / PGSIZE

def PTE_P : Nat := 0x001
def PTE_W : Nat := 0x002
def PTE_U : Nat := 0x004
def PTE_A : Nat := 0x020

/-- C bitwise complement `~m` on a 32-bit unsigned word. -/
def notMask (m : Nat) : Nat := 0xFFFFFFFF ^^^ m

/-- `PTE_ADDR(pte) = pte & ~0xFFF`. -/
def PTE_ADDR (pte : Nat) : Nat := pte &&& notMask 0xFFF

/-- `PGROUNDDOWN(a) = a & ~(PGSIZE-1)`. -/
def PGROUNDDOWN (a : Nat) : Nat := a &&& notMask 0xFFF

/-! ## Controller tunables (globals in pageswap.c; ALPHA/BETA default values) -/

def alpha : Nat := 25
def beta : Nat := 10
def limit : Nat := 100
def threshold0 : Nat := 100
def npages0 : Nat := 4

/-! ## Slot table -/

/-- `struct swap_slot` — `is_free` is an `int` used as a boolean in C. -/
structure SwapSlot where
  page_perm : Nat
  is_free : Bool
  deriving DecidableEq

/-- The `swap_area.slots` array, indexed by slot number (only `[0, 800)` is
meaningful; `swapInit` fills the whole function uniformly). -/
def SlotTable := Nat → SwapSlot

/-- Body of `swapInit`: mark all slots free, clear `page_perm`. -/
def swapInitSlots : SlotTable := fun _ => { page_perm := 0, is_free := true }

/-- The scan loop of `findslot`: starting at index `i` with `fuel` indices
left to inspect, return the first free index. -/
def scanFree (st : SlotTable) : Nat → Nat → Option Nat
  | _, 0 => none
  | i, fuel + 1 => if (st i).is_free then some i else scanFree st (i + 1) fuel

/-- `findslot`: linear scan over `[0, 800)` for the lowest free slot; mark it
used and return its index.  The C marks the slot inside the loop; here the
scan and the mark are separated, with identical effect.  `none` models the
C return value `-1`. -/
def findslot (st : SlotTable) : Option Nat × SlotTable :=
  match scanFree st 0 NSLOTS with
  | some i => (some i,
      fun j => if j = i then { page_perm := (st i).page_perm, is_free := false } else st j)
  | none => (none, st)

/-- `freeslot`: mark slot free and clear `page_perm`; silent no-op when the
index is out of range (the C also rejects negative indices, which `Nat`
excludes by construction).  Written pointwise: slot `j` changes exactly when
the index passes the bound check and `j` is that index. -/
def freeslot (st : SlotTable) (slot_index : Nat) : SlotTable := fun j =>
  if slot_index < NSLOTS ∧ j = slot_index then { page_perm := 0, is_free := true } else st j

/-! ## Page directories and PTE flag tests -/

/-- A page directory, leaf-wise: page number `va / PGSIZE` to leaf PTE.
`none` models `walkpgdir` returning null (no page-table page). -/
def PgDir := Nat → Option Nat

def ptePresent (pte : Nat) : Bool := pte &&& PTE_P != 0
def pteUser (pte : Nat) : Bool := pte &&& PTE_U != 0
def pteAccessed (pte : Nat) : Bool := pte &&& PTE_A != 0

/-! ## Processes and global kernel state -/

/-- `enum procstate` from proc.h. -/
inductive PState where
  | UNUSED | EMBRYO | SLEEPING | RUNNABLE | RUNNING | ZOMBIE
  deriving DecidableEq

/-- The fields of `struct proc` the subsystem reads or writes. -/
structure Proc where
  pstate : PState
  pid : Int
  rss : Int
  pgdir : PgDir

/-- Global kernel state touched by pageswap.c: the slot table, the disk image
(blockno → byte offset → byte), physical page frames (page address → offset →
byte), the `kmem` freelist (addresses of free frames; `countpages` is its
length), the process table, and the two adaptive globals. -/
structure KState where
  slots : SlotTable
  disk : Nat → Nat → Nat
  frames : Nat → Nat → Nat
  freeList : List Nat
  ptable : List Proc
  threshold : Nat
  npages_to_swap : Nat

/-- `countpages`: walk the kmem freelist and count. -/
def countpages (st : KState) : Nat := st.freeList.length

/-- `kalloc`: pop the head of the freelist, or fail. -/
def kallocK (st : KState) : Option (Nat × KState) :=
  match st.freeList with
  | [] => none
  | pa :: rest => some (pa, { st with freeList := rest })

/-- `kfree`: push the page back on the freelist. -/
def kfreeK (st : KState) (pa : Nat) : KState := { st with freeList := pa :: st.freeList }

/-! ## findproc (victim process selection) -/

/-- The C comparator
`p->rss > max_rss || (p->rss == max_rss && victim && p->pid < victim->pid)`
as a Boolean on the loop state. -/
def better (p : Proc) (victim : Option (Nat × Proc)) (maxRss : Int) : Bool :=
  decide (maxRss < p.rss) ||
    (decide (p.rss = maxRss) &&
      match victim with
      | some (_, v) => decide (p.pid < v.pid)
      | none => false)

/-- The scan loop of `findproc` over the (position, process) pairs of the
process table, carrying the current `victim` (with its table position) and
`max_rss` (initially 0): skip `UNUSED`/non-positive-pid entries; when the
comparator fires, record the entry and set `max_rss` to its rss. -/
def findprocGo : List (Nat × Proc) → Option (Nat × Proc) → Int → Option (Nat × Proc)
  | [], victim, _ => victim
  | (i, p) :: rest, victim, maxRss =>
    if p.pstate = PState.UNUSED ∨ p.pid < 1 then findprocGo rest victim maxRss
    else if better p victim maxRss then findprocGo rest (some (i, p)) p.rss
    else findprocGo rest victim maxRss

/-- `findproc`: victim process (with its table index), or `none` (C null). -/
def findproc (ps : List Proc) : Option (Nat × Proc) := findprocGo ps.enum none 0

/-! ## findpage (victim page selection, two-pass second chance) -/

/-- One `for(i = 0; i < KERNBASE; i += PGSIZE)` scan of `findpage`, starting
at page number `pn` with `fuel` pages left: skip when there is no leaf or the
leaf lacks `PTE_P` or `PTE_U`; return `(va, PTE_ADDR pte)` at the first leaf
that is present, user and satisfies `pred` (pass A uses `pred = A clear`,
pass B uses `pred = true`). -/
def scanPT (pgdir : PgDir) (pred : Nat → Bool) : Nat → Nat → Option (Nat × Nat)
  | _, 0 => none
  | pn, fuel + 1 =>
    match pgdir pn with
    | none => scanPT pgdir pred (pn + 1) fuel
    | some pte =>
      if ptePresent pte && pteUser pte && pred pte then some (pn * PGSIZE, PTE_ADDR pte)
      else scanPT pgdir pred (pn + 1) fuel

/-- The clearing sweep of `findpage`: clear `PTE_A` on every present,
user-accessible leaf with page number below the `KERNBASE` bound; every other
entry is untouched. -/
def clearA (pgdir : PgDir) : PgDir := fun pn =>
  if pn < NPGS then
    match pgdir pn with
    | none => none
    | some pte =>
      if ptePresent pte && pteUser pte then some (pte &&& notMask PTE_A) else some pte
  else pgdir pn

/-- `findpage`: pass A returns the first present+user page with `A` clear;
otherwise clear `A` everywhere (present+user entries), flush the TLB
(`lcr3`, reported as the Boolean), and return the first present+user page.
`none` models the C return value `pa = 0`. -/
def findpage (pgdir : PgDir) : Option (Nat × Nat) × PgDir × Bool :=
  match scanPT pgdir (fun pte => !pteAccessed pte) 0 NPGS with
  | some r => (some r, pgdir, false)
  | none =>
    let pgdir1 := clearA pgdir
    (scanPT pgdir1 (fun _ => true) 0 NPGS, pgdir1, true)

/-! ## swappageout (eviction of one page) -/

/-- `swappageout(pgdir, va, pa)`.  The page directory is threaded explicitly
(the C mutates it through the `pte` pointer).  Steps, as in the source:
allocate a slot (fail with -1 if none); walk to the leaf for `va` and require
`PTE_P` (fail with -1 otherwise — note the source does NOT release the slot on
this path); record `*pte & 0xFFF` in the slot's `page_perm`; copy the frame's
8 512-byte chunks to blocks `[2 + 8*slot, 2 + 8*slot + 8)`; and rewrite the
leaf to `(slot_index << 12) | ((*pte) & ~PTE_P & 0xFFF)`. -/
def swappageout (st : KState) (pgdir : PgDir) (va pa : Nat) : Int × KState × PgDir :=
  match findslot st.slots with
  | (none, _) => (-1, st, pgdir)
  | (some slot_index, slots1) =>
    let st1 : KState := { st with slots := slots1 }
    let blockno := 2 + slot_index * 8
    match pgdir (va / PGSIZE) with
    | none => (-1, st1, pgdir)
    | some pte =>
      if ptePresent pte then
        let slots2 : SlotTable := fun j =>
          if j = slot_index then
            { page_perm := pte &&& 0xFFF, is_free := (slots1 slot_index).is_free }
          else slots1 j
        let disk2 : Nat → Nat → Nat := fun b off =>
          if blockno ≤ b ∧ b < blockno + 8 ∧ off < BSIZE then
            st.frames pa ((b - blockno) * BSIZE + off)
          else st.disk b off
        let pgdir2 : PgDir := fun j =>
          if j = va / PGSIZE then
            some ((slot_index <<< 12) ||| (pte &&& notMask PTE_P &&& 0xFFF))
          else pgdir j
        (0, { st1 with slots := slots2, disk := disk2 }, pgdir2)
      else (-1, st1, pgdir)

/-! ## swapout (batched eviction) and the adaptive controller -/

/-- The `while(swapped < npages_to_swap && attempts < npages_to_swap * 2)`
loop of `swapout`, for victim at table index `vidx`.  `fuel` is the number of
attempts left (each iteration costs one attempt); the victim's page directory
is re-read from the table each iteration and findpage / swappageout updates
are written back through it, mirroring the C pointer mutation. -/
def swapoutLoop (vidx : Nat) : Nat → Nat → KState → KState
  | 0, _, st => st
  | fuel + 1, swapped, st =>
    if st.npages_to_swap ≤ swapped then st
    else
      match st.ptable.get? vidx with
      | none => st
      | some victim =>
        match findpage victim.pgdir with
        | (none, pgdir1, _) =>
          { st with ptable := st.ptable.set vidx { victim with pgdir := pgdir1 } }
        | (some (va, pa), pgdir1, _) =>
          let st1 : KState :=
            { st with ptable := st.ptable.set vidx { victim with pgdir := pgdir1 } }
          match swappageout st1 pgdir1 va pa with
          | (r, st2, pgdir2) =>
            let victim2 : Proc :=
              { victim with pgdir := pgdir2,
                            rss := if r = 0 then victim.rss - 1 else victim.rss }
            let st3 : KState := { st2 with ptable := st2.ptable.set vidx victim2 }
            let st4 := if r = 0 then kfreeK st3 pa else st3
            swapoutLoop vidx fuel (if r = 0 then swapped + 1 else swapped) st4

/-- `swapout`: pick a victim process; if none, return; else run the loop with
`attempts` capped at `npages_to_swap * 2`. -/
def swapout (st : KState) : KState :=
  match findproc st.ptable with
  | none => st
  | some (vidx, _) => swapoutLoop vidx (st.npages_to_swap * 2) 0 st

/-- The threshold update of `checkAswap`:
`threshold -= (threshold * beta) / 100; if(threshold < 1) threshold = 1;`. -/
def thresholdNext (t : Nat) : Nat :=
  let t1 := t - t * beta / 100
  if t1 < 1 then 1 else t1

/-- The batch update of `checkAswap`:
`npages_to_swap += (npages_to_swap * alpha) / 100;` capped at `limit`. -/
def npagesNext (n : Nat) : Nat :=
  let n1 := n + n * alpha / 100
  if limit < n1 then limit else n1

/-- `checkAswap`: when `countpages() <= threshold`, run one `swapout` and then
apply the two adaptation updates (the updates do not consult the eviction's
outcome). -/
def checkAswap (st : KState) : KState :=
  let free_pages := countpages st
  if free_pages ≤ st.threshold then
    let st1 := swapout st
    { st1 with threshold := thresholdNext st1.threshold,
               npages_to_swap := npagesNext st1.npages_to_swap }
  else st

/-! ## swappage_in (fault-in) -/

/-- The `p->rss++` on `myproc()` at the end of `swappage_in`; `cur` is the
current process's table index (no-op when out of range, as `if(p)` is). -/
def rssInc (ps : List Proc) (i : Nat) : List Proc :=
  match ps.get? i with
  | none => ps
  | some p => ps.set i { p with rss := p.rss + 1 }

/-- Tail of `swappage_in` after a frame `pa` has been allocated: read the 8
blocks of the slot into the frame, restore `perm := page_perm | PTE_P`,
install the leaf via `mappages` (`*pte = pa | perm | PTE_P`; the leaf's
page-table page exists, so `mappages` succeeds), release the slot, and bump
the current process's rss. -/
def swapInFinish (st : KState) (pgdir : PgDir) (cur pn slot_index pa : Nat) :
    Int × KState × PgDir :=
  let blockno := 2 + slot_index * 8
  let frames2 : Nat → Nat → Nat := fun q off =>
    if q = pa ∧ off < PGSIZE then st.disk (blockno + off / BSIZE) (off % BSIZE)
    else st.frames q off
  let perm := (st.slots slot_index).page_perm ||| PTE_P
  let pgdir2 : PgDir := fun j => if j = pn then some (pa ||| perm ||| PTE_P) else pgdir j
  let st2 : KState :=
    { st with
      frames := frames2
      slots := freeslot st.slots slot_index
      ptable := rssInc st.ptable cur }
  (0, st2, pgdir2)

/-- `swappage_in(pgdir, va)`: round `va` down; read-only walk (fail if no
leaf); success immediately if the leaf is already present; decode the slot
index from the upper bits and fail if out of range or free; allocate a frame,
retrying once after `checkAswap` on failure; then finish. -/
def swappage_in (st : KState) (cur : Nat) (pgdir : PgDir) (va : Nat) :
    Int × KState × PgDir :=
  let pn := PGROUNDDOWN va / PGSIZE
  match pgdir pn with
  | none => (-1, st, pgdir)
  | some pte =>
    if ptePresent pte then (0, st, pgdir)
    else
      let slot_index := PTE_ADDR pte >>> 12
      if NSLOTS ≤ slot_index ∨ (st.slots slot_index).is_free then (-1, st, pgdir)
      else
        match kallocK st with
        | some (pa, st1) => swapInFinish st1 pgdir cur pn slot_index pa
        | none =>
          let st1 := checkAswap st
          match kallocK st1 with
          | none => (-1, st1, pgdir)
          | some (pa, st2) => swapInFinish st2 pgdir cur pn slot_index pa

/-! ## swapFree (exit cleanup) -/

/-- One page of the `swapFree` scan: when the leaf exists, is non-present and
nonzero, decode the slot index and release it when in range.  No `*pte` write
occurs anywhere in `swapFree`. -/
def swapFreeStep (pgdir : PgDir) (slots : SlotTable) (pn : Nat) : SlotTable :=
  match pgdir pn with
  | none => slots
  | some pte =>
    if ptePresent pte = false ∧ pte ≠ 0 then
      let slot_index := PTE_ADDR pte >>> 12
      if slot_index < NSLOTS then freeslot slots slot_index else slots
    else slots

/-- `swapFree`: scan `[0, KERNBASE)` releasing the slot of every swapped
leaf.  The returned page directory is the input one: the source reads but
never writes the PTEs. -/
def swapFree (pgdir : PgDir) (slots : SlotTable) : SlotTable × PgDir :=
  ((List.range NPGS).foldl (swapFreeStep pgdir) slots, pgdir)

/-! ## duplicateslot (fork support) -/

/-- Tail of `duplicateslot` once the child slot is reserved: copy
`page_perm` parent → child under the lock; copy the 8 disk blocks of the
parent's region onto the child's region. -/
def slotCopy (st : KState) (parent_slot child_slot : Nat) : KState :=
  let slots2 : SlotTable := fun j =>
    if j = child_slot then
      { page_perm := (st.slots parent_slot).page_perm, is_free := (st.slots child_slot).is_free }
    else st.slots j
  let parent_blockno := 2 + parent_slot * 8
  let child_blockno := 2 + child_slot * 8
  let disk2 : Nat → Nat → Nat := fun b off =>
    if child_blockno ≤ b ∧ b < child_blockno + 8 ∧ off < BSIZE then
      st.disk (parent_blockno + (b - child_blockno)) off
    else st.disk b off
  { st with slots := slots2, disk := disk2 }

/-- `duplicateslot(parent_slot)`: reject an out-of-range or free parent;
allocate a child slot, retrying after `checkAswap` up to two more times;
then copy metadata and data. -/
def duplicateslot (st : KState) (parent_slot : Nat) : Option Nat × KState :=
  if NSLOTS ≤ parent_slot ∨ (st.slots parent_slot).is_free then (none, st)
  else
    match findslot st.slots with
    | (some child, slots1) =>
      (some child, slotCopy { st with slots := slots1 } parent_slot child)
    | (none, _) =>
      match findslot (checkAswap st).slots with
      | (some child, slots2) =>
        (some child, slotCopy { checkAswap st with slots := slots2 } parent_slot child)
      | (none, _) =>
        match findslot (checkAswap (checkAswap st)).slots with
        | (some child, slots3) =>
          (some child,
            slotCopy { checkAswap (checkAswap st) with slots := slots3 } parent_slot child)
        | (none, _) => (none, checkAswap (checkAswap st))

/-! ## Bit-level toolkit -/

lemma land_mask_mod (a : Nat) : a &&& 0xFFF = a % 2 ^ 12 := by
  have h : (0xFFF : Nat) = 2 ^ 12 - 1 := by norm_num
  rw [h, Nat.and_pow_two_sub_one_eq_mod]

lemma lor_land_distrib (x y z : Nat) : (x ||| y) &&& z = (x &&& z) ||| (y &&& z) := by
  rw [Nat.land_comm, Nat.and_or_distrib_left, Nat.land_comm z x, Nat.land_comm z y]

lemma testBit_notMask (m : Nat) (hm : m < 2 ^ 32) (i : Nat) :
    (notMask m).testBit i = (decide (i < 32) && !(m.testBit i)) := by
  show ((0xFFFFFFFF : Nat) ^^^ m).testBit i = _
  have h1 : (0xFFFFFFFF : Nat) = 2 ^ 32 - 1 := by norm_num
  rw [h1, Nat.testBit_xor, Nat.testBit_two_pow_sub_one]
  rcases Nat.lt_or_ge i 32 with h | h
  · rw [decide_eq_true h]
    cases m.testBit i <;> rfl
  · have hbit : m.testBit i = false :=
      Nat.testBit_lt_two_pow (lt_of_lt_of_le hm (Nat.pow_le_pow_right (by norm_num) h))
    rw [decide_eq_false (Nat.not_lt.mpr h), hbit]
    rfl

/-- Masking with `~0xFFF` (on a 32-bit value) rounds down to a multiple of
`2^12`. -/
lemma land_himask (a : Nat) (ha : a < 2 ^ 32) :
    a &&& notMask 0xFFF = a / 2 ^ 12 * 2 ^ 12 := by
  have hrw : a / 2 ^ 12 * 2 ^ 12 = (a >>> 12) <<< 12 := by
    rw [Nat.shiftRight_eq_div_pow, Nat.shiftLeft_eq]
  rw [hrw]
  apply Nat.eq_of_testBit_eq
  intro i
  rw [Nat.testBit_land, Nat.testBit_shiftLeft, Nat.testBit_shiftRight,
    testBit_notMask _ (by norm_num)]
  have hfff : (0xFFF : Nat).testBit i = decide (i < 12) := by
    have h2 : (0xFFF : Nat) = 2 ^ 12 - 1 := by norm_num
    rw [h2, Nat.testBit_two_pow_sub_one]
  rw [hfff]
  rcases Nat.lt_or_ge i 12 with h12 | h12
  · rw [decide_eq_true h12, decide_eq_false (by omega : ¬i ≥ 12)]
    simp
  · have hi : 12 + (i - 12) = i := by omega
    rw [decide_eq_false (by omega : ¬i < 12), decide_eq_true (by omega : i ≥ 12), hi]
    rcases Nat.lt_or_ge i 32 with h32 | h32
    · rw [decide_eq_true h32]
      cases a.testBit i <;> rfl
    · have hbit : a.testBit i = false :=
        Nat.testBit_lt_two_pow (lt_of_lt_of_le ha (Nat.pow_le_pow_right (by norm_num) h32))
      rw [decide_eq_false (Nat.not_lt.mpr h32), hbit]
      rfl

lemma PTE_ADDR_eq (a : Nat) (ha : a < 2 ^ 32) : PTE_ADDR a = a / 2 ^ 12 * 2 ^ 12 :=
  land_himask a ha

lemma PGROUNDDOWN_div (a : Nat) (ha : a < 2 ^ 32) : PGROUNDDOWN a / PGSIZE = a / PGSIZE := by
  show (a &&& notMask 0xFFF) / PGSIZE = a / PGSIZE
  rw [land_himask a ha]
  have h : PGSIZE = 2 ^ 12 := by norm_num [PGSIZE]
  rw [h, Nat.mul_div_cancel _ (by norm_num : 0 < 2 ^ 12)]

/-- A shifted slot index survives `PTE_ADDR` unchanged. -/
lemma land_himask_shift (s : Nat) (hs : s < 2 ^ 20) :
    (s <<< 12) &&& notMask 0xFFF = s <<< 12 := by
  rw [Nat.shiftLeft_eq]
  have hlt : s * 2 ^ 12 < 2 ^ 32 := by
    calc s * 2 ^ 12 < 2 ^ 20 * 2 ^ 12 := by
          exact (Nat.mul_lt_mul_right (by norm_num)).mpr hs
      _ = 2 ^ 32 := by norm_num
  rw [land_himask _ hlt, Nat.mul_div_cancel _ (by norm_num : 0 < 2 ^ 12)]

lemma shiftLeft_shiftRight_id (s : Nat) : (s <<< 12) >>> 12 = s := by
  rw [Nat.shiftLeft_eq, Nat.shiftRight_eq_div_pow,
    Nat.mul_div_cancel _ (by norm_num : 0 < 2 ^ 12)]

/-! ## scanFree / findslot lemmas -/

lemma scanFree_some (st : SlotTable) :
    ∀ fuel i j, scanFree st i fuel = some j →
      (st j).is_free = true ∧ i ≤ j ∧ j < i + fuel ∧
      ∀ k, i ≤ k → k < j → (st k).is_free = false := by
  intro fuel
  induction fuel with
  | zero => intro i j h; simp [scanFree] at h
  | succ n ih =>
    intro i j h
    simp only [scanFree] at h
    by_cases hfree : (st i).is_free = true
    · rw [if_pos hfree] at h
      injection h with h
      subst h
      exact ⟨hfree, Nat.le_refl _, by omega, fun k hk1 hk2 => absurd hk1 (by omega)⟩
    · rw [if_neg hfree] at h
      obtain ⟨h1, h2, h3, h4⟩ := ih (i + 1) j h
      refine ⟨h1, by omega, by omega, fun k hk1 hk2 => ?_⟩
      by_cases hk : k = i
      · subst hk
        exact Bool.not_eq_true _ ▸ (by simpa using hfree)
      · exact h4 k (by omega) hk2

lemma scanFree_none (st : SlotTable) :
    ∀ fuel i, scanFree st i fuel = none ↔
      ∀ k, i ≤ k → k < i + fuel → (st k).is_free = false := by
  intro fuel
  induction fuel with
  | zero => intro i; simp [scanFree]; intro k h1 h2; omega
  | succ n ih =>
    intro i
    simp only [scanFree]
    by_cases hfree : (st i).is_free = true
    · rw [if_pos hfree]
      constructor
      · intro h; cases h
      · intro h
        have := h i (Nat.le_refl _) (by omega)
        rw [hfree] at this
        cases this
    · rw [if_neg hfree]
      rw [ih (i + 1)]
      constructor
      · intro h k hk1 hk2
        by_cases hk : k = i
        · subst hk; exact Bool.not_eq_true _ ▸ (by simpa using hfree)
        · exact h k (by omega) (by omega)
      · intro h k hk1 hk2
        exact h k (by omega) (by omega)

/-- Full characterization of a successful `findslot`: the result is the least
free index, and the returned table is the input with exactly that slot marked
used. -/
lemma findslot_eq_some (st : SlotTable) (i : Nat) (h : (findslot st).1 = some i) :
    findslot st = (some i,
      fun j => if j = i then { page_perm := (st i).page_perm, is_free := false } else st j) ∧
    i < NSLOTS ∧ (st i).is_free = true ∧ ∀ j, j < i → (st j).is_free = false := by
  rcases hscan : scanFree st 0 NSLOTS with _ | k
  · rw [findslot, hscan] at h
    cases h
  · rw [findslot, hscan] at h
    injection h with h
    subst h
    obtain ⟨h1, _, h3, h4⟩ := scanFree_some st NSLOTS 0 k hscan
    exact ⟨by rw [findslot, hscan], by omega, h1, fun j hj => h4 j (Nat.zero_le _) hj⟩

lemma findslot_eq_none (st : SlotTable) (h : (findslot st).1 = none) :
    findslot st = (none, st) ∧ ∀ i, i < NSLOTS → (st i).is_free = false := by
  rcases hscan : scanFree st 0 NSLOTS with _ | k
  · refine ⟨by rw [findslot, hscan], fun i hi => ?_⟩
    exact (scanFree_none st NSLOTS 0).mp hscan i (Nat.zero_le _) (by omega)
  · rw [findslot, hscan] at h
    cases h

/-! ## Claim C6 -/

/-- C6: `findslot` (allocate) returns the lowest-indexed free slot, marking it
used (its `page_perm` untouched) before returning and leaving every other slot
unchanged; it returns `none` (C `-1`) exactly when no slot in `[0, 800)` is
free, in which case the table is unchanged.  Determinism is immediate: the
model is a function of the table state. -/
theorem findslot_first_fit (st : SlotTable) :
    (∀ i, (findslot st).1 = some i →
      i < NSLOTS ∧ (st i).is_free = true ∧
      (∀ j, j < i → (st j).is_free = false) ∧
      ((findslot st).2 i).is_free = false ∧
      ((findslot st).2 i).page_perm = (st i).page_perm ∧
      (∀ j, j ≠ i → (findslot st).2 j = st j)) ∧
    ((findslot st).1 = none ↔ ∀ i, i < NSLOTS → (st i).is_free = false) ∧
    ((findslot st).1 = none → (findslot st).2 = st) := by
  refine ⟨?_, ⟨?_, ?_⟩, ?_⟩
  · intro i h
    obtain ⟨heq, hlt, hfree, hmin⟩ := findslot_eq_some st i h
    refine ⟨hlt, hfree, hmin, ?_, ?_, ?_⟩
    · rw [heq]; simp
    · rw [heq]; simp
    · intro j hj; rw [heq]; simp [hj]
  · intro h
    exact (findslot_eq_none st h).2
  · intro hall
    rcases hsome : (findslot st).1 with _ | i
    · rfl
    · obtain ⟨_, hlt, hfree, _⟩ := findslot_eq_some st i hsome
      rw [hall i hlt] at hfree
      cases hfree
  · intro h
    rw [(findslot_eq_none st h).1]

/-- Example slot table: slots 0..2 used, the rest free. -/
def slotsW1 : SlotTable := fun i =>
  if i < 3 then { page_perm := 0, is_free := false } else { page_perm := 0, is_free := true }

/-- Witness for C6 at a concrete table: the first free slot is index 3; it is
marked used by the call while slot 4 stays free. -/
theorem findslot_first_fit_witness :
    3 < NSLOTS ∧ (slotsW1 3).is_free = true ∧ ((findslot slotsW1).2 3).is_free = false ∧
    ((findslot slotsW1).2 4).is_free = true := by
  obtain ⟨h1, h2, _, h4, _, h6⟩ := (findslot_first_fit slotsW1).1 3 (by decide)
  refine ⟨h1, h2, h4, ?_⟩
  rw [h6 4 (by decide)]
  decide

/-! ## Controller-field preservation (swapout never touches the tunables) -/

lemma swappageout_controller (st : KState) (pgdir : PgDir) (va pa : Nat) :
    (swappageout st pgdir va pa).2.1.threshold = st.threshold ∧
    (swappageout st pgdir va pa).2.1.npages_to_swap = st.npages_to_swap := by
  rw [swappageout]
  refine ⟨?_, ?_⟩ <;>
  · split
    · rfl
    · split
      · rfl
      · split <;> rfl

lemma swapoutLoop_controller (vidx : Nat) : ∀ fuel swapped st,
    (swapoutLoop vidx fuel swapped st).threshold = st.threshold ∧
    (swapoutLoop vidx fuel swapped st).npages_to_swap = st.npages_to_swap := by
  intro fuel
  induction fuel with
  | zero => intro swapped st; exact ⟨rfl, rfl⟩
  | succ n ih =>
    intro swapped st
    simp only [swapoutLoop]
    constructor
    · split
      · rfl
      · split
        · rfl
        · split
          · rfl
          · rw [(ih _ _).1]
            split
            · show (swappageout _ _ _ _).2.1.threshold = st.threshold
              rw [(swappageout_controller _ _ _ _).1]
            · show (swappageout _ _ _ _).2.1.threshold = st.threshold
              rw [(swappageout_controller _ _ _ _).1]
    · split
      · rfl
      · split
        · rfl
        · split
          · rfl
          · rw [(ih _ _).2]
            split
            · show (swappageout _ _ _ _).2.1.npages_to_swap = st.npages_to_swap
              rw [(swappageout_controller _ _ _ _).2]
            · show (swappageout _ _ _ _).2.1.npages_to_swap = st.npages_to_swap
              rw [(swappageout_controller _ _ _ _).2]

lemma swapout_controller (st : KState) :
    (swapout st).threshold = st.threshold ∧
    (swapout st).npages_to_swap = st.npages_to_swap := by
  rw [swapout]
  constructor
  · split
    · rfl
    · exact (swapoutLoop_controller _ _ _ _).1
  · split
    · rfl
    · exact (swapoutLoop_controller _ _ _ _).2

/-! ## Arithmetic of the two adaptation updates -/

lemma thresholdNext_eq_max (t : Nat) :
    thresholdNext t = max 1 (t - t * beta / 100) := by
  rw [thresholdNext]
  by_cases h : t - t * beta / 100 < 1
  · rw [if_pos h]
    omega
  · rw [if_neg h]
    omega

lemma npagesNext_eq_min (n : Nat) :
    npagesNext n = min limit (n + n * alpha / 100) := by
  rw [npagesNext]
  by_cases h : limit < n + n * alpha / 100
  · rw [if_pos h]
    omega
  · rw [if_neg h]
    omega

lemma threshold_mul_beta_div (t : Nat) : t * beta / 100 = t / 10 := by
  show t * 10 / 100 = t / 10
  rw [Nat.mul_comm t 10, (by norm_num : (100 : Nat) = 10 * 10),
    Nat.mul_div_mul_left t 10 (by norm_num)]

lemma npages_mul_alpha_div (n : Nat) : n * alpha / 100 = n / 4 := by
  show n * 25 / 100 = n / 4
  rw [Nat.mul_comm n 25, (by norm_num : (100 : Nat) = 25 * 4),
    Nat.mul_div_mul_left n 4 (by norm_num)]

lemma thresholdNext_le (t : Nat) (h : 1 ≤ t) : thresholdNext t ≤ t := by
  rw [thresholdNext_eq_max]
  omega

lemma thresholdNext_lt_iff (t : Nat) (h : 1 ≤ t) : thresholdNext t < t ↔ 10 ≤ t := by
  rw [thresholdNext_eq_max, threshold_mul_beta_div]
  constructor
  · intro hlt
    by_contra hc
    have h10 : t < 10 := by omega
    have hd : t / 10 = 0 := Nat.div_eq_of_lt h10
    omega
  · intro h10
    have hd1 : 1 ≤ t / 10 := (Nat.one_le_div_iff (by norm_num)).mpr h10
    have hdlt : t / 10 < t := Nat.div_lt_self (by omega) (by norm_num)
    omega

lemma npagesNext_ge (n : Nat) (h : n ≤ limit) : n ≤ npagesNext n := by
  rw [npagesNext_eq_min]
  have : n ≤ n + n * alpha / 100 := Nat.le_add_right _ _
  omega

lemma npagesNext_gt (n : Nat) (h4 : 4 ≤ n) (hlim : n < limit) : n < npagesNext n := by
  rw [npagesNext_eq_min, npages_mul_alpha_div]
  have hd1 : 1 ≤ n / 4 := (Nat.one_le_div_iff (by norm_num)).mpr h4
  have hl : (limit : Nat) = 100 := rfl
  omega

/-! ## Claim C1 -/

/-- C1 (amended): when triggered (`countpages ≤ threshold`), `checkAswap`
applies exactly `threshold := max 1 (threshold - threshold*beta/100)` and
`npages_to_swap := min limit (npages_to_swap + npages_to_swap*alpha/100)`
after the eviction, unconditionally — the right-hand sides depend only on the
pre-state tunables, which `swapout` never modifies, so the update is the same
however many pages were evicted.  `threshold` never increases (for
`threshold ≥ 1`) but the decrease is strict exactly when `threshold ≥ 10`
(with `beta = 10`): the decrement `threshold*beta/100` truncates to zero
below 10, so the threshold stagnates without reaching the floor 1.
`npages_to_swap` never decreases (while ≤ `limit`) and strictly increases
whenever `4 ≤ npages_to_swap < limit` (with `alpha = 25`). -/
theorem checkAswap_controller (st : KState) (h : countpages st ≤ st.threshold) :
    (checkAswap st).threshold = max 1 (st.threshold - st.threshold * beta / 100) ∧
    (checkAswap st).npages_to_swap =
      min limit (st.npages_to_swap + st.npages_to_swap * alpha / 100) ∧
    (1 ≤ st.threshold → (checkAswap st).threshold ≤ st.threshold ∧
      ((checkAswap st).threshold < st.threshold ↔ 10 ≤ st.threshold)) ∧
    (st.npages_to_swap ≤ limit → st.npages_to_swap ≤ (checkAswap st).npages_to_swap) ∧
    (4 ≤ st.npages_to_swap → st.npages_to_swap < limit →
      st.npages_to_swap < (checkAswap st).npages_to_swap) := by
  have hth : (checkAswap st).threshold = thresholdNext st.threshold := by
    rw [checkAswap, if_pos h]
    show thresholdNext (swapout st).threshold = _
    rw [(swapout_controller st).1]
  have hnp : (checkAswap st).npages_to_swap = npagesNext st.npages_to_swap := by
    rw [checkAswap, if_pos h]
    show npagesNext (swapout st).npages_to_swap = _
    rw [(swapout_controller st).2]
  refine ⟨by rw [hth, thresholdNext_eq_max], by rw [hnp, npagesNext_eq_min], ?_, ?_, ?_⟩
  · intro h1
    rw [hth]
    exact ⟨thresholdNext_le _ h1, thresholdNext_lt_iff _ h1⟩
  · intro h1
    rw [hnp]
    exact npagesNext_ge _ h1
  · intro h4 hlim
    rw [hnp]
    exact npagesNext_gt _ h4 hlim

/-- State with the stagnation threshold 9 (reachable from the boot value 100,
see the counterexample) and memory pressure (`countpages = 0`). -/
def exStC1 : KState :=
  { slots := swapInitSlots, disk := fun _ _ => 0, frames := fun _ _ => 0,
    freeList := [], ptable := [], threshold := 9, npages_to_swap := 4 }

/-- C1 counterexample: after 27 triggered calls from the boot value 100 the
threshold sits at 9, and a triggered `checkAswap` there leaves it at 9 — it
does not strictly decrease, and it never reaches the claimed floor of 1. -/
theorem checkAswap_threshold_stagnates :
    thresholdNext^[27] threshold0 = 9 ∧
    countpages exStC1 ≤ exStC1.threshold ∧
    (checkAswap exStC1).threshold = 9 ∧ 1 < exStC1.threshold := by
  refine ⟨by decide, by decide, ?_, by decide⟩
  decide

/-- Boot-state instance for the C1 witness (scenario S1 of the spec). -/
def exStC1w : KState :=
  { slots := swapInitSlots, disk := fun _ _ => 0, frames := fun _ _ => 0,
    freeList := [], ptable := [], threshold := threshold0, npages_to_swap := npages0 }

/-- Witness for C1 at the boot tunables: one triggered call moves the
threshold from 100 to 90 and the batch from 4 to 5. -/
theorem checkAswap_controller_witness :
    countpages exStC1w ≤ exStC1w.threshold ∧
    (checkAswap exStC1w).threshold = 90 ∧ (checkAswap exStC1w).npages_to_swap = 5 := by
  have h := checkAswap_controller exStC1w (by decide)
  refine ⟨by decide, ?_, ?_⟩
  · rw [h.1]; decide
  · rw [h.2.1]; decide

/-! ## Characterization of a successful swappageout -/

/-- When a slot is found and the leaf for `va` is present, `swappageout`
succeeds; this spells out every component of the result: the rewritten leaf,
the captured `page_perm`, the used child slot, the 8 disk blocks written from
the frame, and the untouched fields. -/
lemma swappageout_present_spec (st : KState) (pgdir : PgDir) (va pa s pte : Nat)
    (hslot : (findslot st.slots).1 = some s)
    (hpte : pgdir (va / PGSIZE) = some pte)
    (hp : ptePresent pte = true) :
    (swappageout st pgdir va pa).1 = 0 ∧
    (swappageout st pgdir va pa).2.2 (va / PGSIZE) =
      some ((s <<< 12) ||| (pte &&& notMask PTE_P &&& 0xFFF)) ∧
    (∀ j, j ≠ va / PGSIZE → (swappageout st pgdir va pa).2.2 j = pgdir j) ∧
    ((swappageout st pgdir va pa).2.1.slots s).page_perm = pte &&& 0xFFF ∧
    ((swappageout st pgdir va pa).2.1.slots s).is_free = false ∧
    (∀ j, j ≠ s → (swappageout st pgdir va pa).2.1.slots j = (findslot st.slots).2 j) ∧
    (∀ b off, 2 + s * 8 ≤ b → b < 2 + s * 8 + 8 → off < BSIZE →
      (swappageout st pgdir va pa).2.1.disk b off =
        st.frames pa ((b - (2 + s * 8)) * BSIZE + off)) ∧
    (swappageout st pgdir va pa).2.1.freeList = st.freeList ∧
    (swappageout st pgdir va pa).2.1.frames = st.frames := by
  obtain ⟨heq, hlt, hfree, hmin⟩ := findslot_eq_some st.slots s hslot
  refine ⟨?_, ?_, ?_, ?_, ?_, ?_, ?_, ?_, ?_⟩ <;>
    simp only [swappageout, heq, hpte, hp, if_true] <;>
    first
    | (intro b off h1 h2 h3; rw [if_pos ⟨h1, h2, h3⟩])
    | (intro j hj; rw [if_neg hj])

/-! ## Claim C4 -/

/-- C4: a successful eviction rewrites the leaf PTE to
`(slot_index << 12) | (F & ~P)` where `F` is the previous low-12 flag field:
upper bits hold the allocated slot index, low 12 bits are the original flags
with the present bit masked off.  The C expression
`(*pte) & ~PTE_P & 0xFFF` equals `(F & ~P)` written on the 12-bit field. -/
theorem swappageout_pte_encoding (st : KState) (pgdir : PgDir) (va pa s pte : Nat)
    (hslot : (findslot st.slots).1 = some s)
    (hpte : pgdir (va / PGSIZE) = some pte)
    (hp : ptePresent pte = true) :
    (swappageout st pgdir va pa).1 = 0 ∧
    (swappageout st pgdir va pa).2.2 (va / PGSIZE) =
      some ((s <<< 12) ||| ((pte &&& 0xFFF) &&& (0xFFF ^^^ PTE_P))) := by
  obtain ⟨h1, h2, _⟩ := swappageout_present_spec st pgdir va pa s pte hslot hpte hp
  refine ⟨h1, ?_⟩
  rw [h2]
  have hmask : pte &&& notMask PTE_P &&& 0xFFF = (pte &&& 0xFFF) &&& (0xFFF ^^^ PTE_P) := by
    rw [Nat.land_assoc, Nat.land_assoc]
    congr 1
  rw [hmask]

/-- Concrete state for the C4/C2 witnesses: all slots free, one present page. -/
def exStW : KState :=
  { slots := swapInitSlots, disk := fun _ _ => 0, frames := fun _ _ => 0,
    freeList := [], ptable := [], threshold := threshold0, npages_to_swap := npages0 }

/-- One present, user, accessed, writable leaf at page number 3. -/
def pgdirW4 : PgDir := fun pn => if pn = 3 then some 0x1027 else none

/-- Witness for C4: evicting the page at `va = 3*PGSIZE` (flags `0x27`)
into slot 0 leaves the leaf equal to `(0 << 12) | (0x27 & ~P) = 0x26`. -/
theorem swappageout_pte_encoding_witness :
    (swappageout exStW pgdirW4 (3 * PGSIZE) 0x1000).1 = 0 ∧
    (swappageout exStW pgdirW4 (3 * PGSIZE) 0x1000).2.2 (3 * PGSIZE / PGSIZE) =
      some ((0 <<< 12) ||| ((0x1027 &&& 0xFFF) &&& (0xFFF ^^^ PTE_P))) :=
  swappageout_pte_encoding exStW pgdirW4 (3 * PGSIZE) 0x1000 0 0x1027
    (by decide) (by decide) (by decide)

/-! ## Claim C2 (code bug: the slot is leaked, not released) -/

/-- Page directory with no leaf anywhere. -/
def pgdirC2 : PgDir := fun _ => none

/-- Page directory whose only leaf at page 0 is swapped (non-present). -/
def pgdirC2b : PgDir := fun pn => if pn = 0 then some 0x26 else none

/-- C2: the failing-path evaluation.  With every slot free, `swappageout`
allocates slot 0; when the walk then finds no leaf (first conjunct block) or
a non-present leaf (second block), the call returns -1 but slot 0 stays
marked used — the source returns straight from the `!pte || !(*pte & PTE_P)`
check without `freeslot`, so the failing call leaks the slot and the used-slot
set changes, contradicting the claimed release. -/
theorem swappageout_fail_leaks_slot :
    ((swappageout exStW pgdirC2 0 0).1 = -1 ∧
      (exStW.slots 0).is_free = true ∧
      ((swappageout exStW pgdirC2 0 0).2.1.slots 0).is_free = false) ∧
    ((swappageout exStW pgdirC2b 0 0).1 = -1 ∧
      ((swappageout exStW pgdirC2b 0 0).2.1.slots 0).is_free = false) := by
  refine ⟨⟨?_, by decide, ?_⟩, ?_, ?_⟩ <;> decide

/-! ## Claim C9 -/

/-- C9: the two early exits of `swappage_in`.  If the leaf for the faulting
address already has `P` set, the call returns 0 with the whole state and the
page directory untouched.  If the leaf is non-present and the slot index
decoded from its upper bits is out of range or names a free slot, the call
returns -1, again without modifying anything.  (The C `slot_index < 0` arm
cannot fire: `PTE_ADDR(*pte) >> 12` of an unsigned word is nonnegative, so
out of range reduces to `>= 800`.) -/
theorem swappage_in_early_exits (st : KState) (cur : Nat) (pgdir : PgDir) (va pte : Nat)
    (hpte : pgdir (PGROUNDDOWN va / PGSIZE) = some pte) :
    (ptePresent pte = true → swappage_in st cur pgdir va = (0, st, pgdir)) ∧
    (ptePresent pte = false →
      (NSLOTS ≤ PTE_ADDR pte >>> 12 ∨ (st.slots (PTE_ADDR pte >>> 12)).is_free = true) →
      swappage_in st cur pgdir va = (-1, st, pgdir)) := by
  constructor
  · intro hp
    simp only [swappage_in, hpte, hp, if_true]
  · intro hp hbad
    simp only [swappage_in, hpte, hp, Bool.false_eq_true, if_false]
    rw [if_pos hbad]

/-- State for the C9 witness: every slot free. -/
def exStC9 : KState :=
  { slots := swapInitSlots, disk := fun _ _ => 0, frames := fun _ _ => 0,
    freeList := [], ptable := [], threshold := threshold0, npages_to_swap := npages0 }

/-- Directory with a present leaf at page 2 and a swapped leaf at page 5
whose decoded slot 3 is free in `exStC9`. -/
def pgdirC9 : PgDir := fun pn =>
  if pn = 2 then some 0x27 else if pn = 5 then some ((3 <<< 12) ||| 0x26) else none

/-- Witness for C9: a fault on the present page returns 0 unchanged; a fault
whose PTE names free slot 3 returns -1 unchanged (`va` deliberately not
page-aligned to exercise the rounding). -/
theorem swappage_in_early_exits_witness :
    swappage_in exStC9 0 pgdirC9 (2 * PGSIZE + 5) = (0, exStC9, pgdirC9) ∧
    swappage_in exStC9 0 pgdirC9 (5 * PGSIZE + 7) = (-1, exStC9, pgdirC9) := by
  constructor
  · exact (swappage_in_early_exits exStC9 0 pgdirC9 (2 * PGSIZE + 5) 0x27
      (by decide)).1 (by decide)
  · exact (swappage_in_early_exits exStC9 0 pgdirC9 (5 * PGSIZE + 7) ((3 <<< 12) ||| 0x26)
      (by decide)).2 (by decide) (by decide)

/-! ## swapFree lemmas -/

lemma freeslot_keeps_freed (slots : SlotTable) (k i : Nat)
    (h1 : (slots i).is_free = true) (h2 : (slots i).page_perm = 0) :
    ((freeslot slots k) i).is_free = true ∧ ((freeslot slots k) i).page_perm = 0 := by
  by_cases h : k < NSLOTS ∧ i = k
  · simp [freeslot, if_pos h]
  · simp only [freeslot, if_neg h]
    exact ⟨h1, h2⟩

lemma swapFreeStep_keeps_freed (pgdir : PgDir) (slots : SlotTable) (pn i : Nat)
    (h1 : (slots i).is_free = true) (h2 : (slots i).page_perm = 0) :
    ((swapFreeStep pgdir slots pn) i).is_free = true ∧
    ((swapFreeStep pgdir slots pn) i).page_perm = 0 := by
  cases hpg : pgdir pn with
  | none =>
    simp only [swapFreeStep, hpg]
    exact ⟨h1, h2⟩
  | some pte =>
    simp only [swapFreeStep, hpg]
    split
    · split
      · exact freeslot_keeps_freed slots _ i h1 h2
      · exact ⟨h1, h2⟩
    · exact ⟨h1, h2⟩

lemma foldl_swapFreeStep_keeps_freed (pgdir : PgDir) :
    ∀ (l : List Nat) (slots : SlotTable) (i : Nat),
      (slots i).is_free = true → (slots i).page_perm = 0 →
      ((l.foldl (swapFreeStep pgdir) slots) i).is_free = true ∧
      ((l.foldl (swapFreeStep pgdir) slots) i).page_perm = 0 := by
  intro l
  induction l with
  | nil => intro slots i h1 h2; exact ⟨h1, h2⟩
  | cons pn rest ih =>
    intro slots i h1 h2
    obtain ⟨h1s, h2s⟩ := swapFreeStep_keeps_freed pgdir slots pn i h1 h2
    exact ih (swapFreeStep pgdir slots pn) i h1s h2s

lemma foldl_swapFreeStep_frees (pgdir : PgDir) :
    ∀ (l : List Nat) (slots : SlotTable) (pn pte : Nat), pn ∈ l →
      pgdir pn = some pte → ptePresent pte = false → pte ≠ 0 →
      PTE_ADDR pte >>> 12 < NSLOTS →
      ((l.foldl (swapFreeStep pgdir) slots) (PTE_ADDR pte >>> 12)).is_free = true ∧
      ((l.foldl (swapFreeStep pgdir) slots) (PTE_ADDR pte >>> 12)).page_perm = 0 := by
  intro l
  induction l with
  | nil => intro slots pn pte hmem; cases hmem
  | cons hd rest ih =>
    intro slots pn pte hmem hpte hnp hnz hlt
    rcases List.mem_cons.mp hmem with hhd | htl
    · subst hhd
      have hstep : ((swapFreeStep pgdir slots pn) (PTE_ADDR pte >>> 12)).is_free = true ∧
          ((swapFreeStep pgdir slots pn) (PTE_ADDR pte >>> 12)).page_perm = 0 := by
        simp only [swapFreeStep, hpte]
        rw [if_pos ⟨hnp, hnz⟩, if_pos hlt]
        simp [freeslot, hlt]
      exact foldl_swapFreeStep_keeps_freed pgdir rest _ _ hstep.1 hstep.2
    · exact ih (swapFreeStep pgdir slots hd) pn pte htl hpte hnp hnz hlt

/-! ## Claim C3 -/

/-- Directory holding three swapped leaves in slots 10, 11, 12 (flags
`W|U|A = 0x26`, present bit clear). -/
def pgdirC3 : PgDir := fun pn =>
  if pn = 0 then some ((10 <<< 12) ||| 0x26)
  else if pn = 1 then some ((11 <<< 12) ||| 0x26)
  else if pn = 2 then some ((12 <<< 12) ||| 0x26)
  else none

/-- Slot table in which exactly slots 10, 11, 12 are used. -/
def slotsC3 : SlotTable := fun i =>
  if i = 10 ∨ i = 11 ∨ i = 12 then { page_perm := 0x26, is_free := false }
  else { page_perm := 0, is_free := true }

/-- C3 counterexample: `swapFree` releases the slots but performs no PTE
write anywhere (the returned page directory is the input one), so after
cleanup the three swapped leaves still hold their non-zero swapped encodings
— they are not set to zero as the claim states. -/
theorem swapFree_leaves_ptes_nonzero :
    (swapFree pgdirC3 slotsC3).2 0 = some ((10 <<< 12) ||| 0x26) ∧
    (swapFree pgdirC3 slotsC3).2 1 = some ((11 <<< 12) ||| 0x26) ∧
    (swapFree pgdirC3 slotsC3).2 2 = some ((12 <<< 12) ||| 0x26) ∧
    ((10 <<< 12) ||| 0x26) ≠ 0 := by
  exact ⟨rfl, rfl, rfl, by decide⟩

/-- C3 (amended): `swapFree` releases the slot of every swapped leaf — any
leaf below `KERNBASE` that is nonzero and non-present with an in-range slot
index ends with its slot free (and `page_perm` cleared) — but it leaves every
PTE unchanged: the source never writes `*pte`, so the swapped entries stay
non-zero (their disposal is left to the generic page-table teardown). -/
theorem swapFree_releases_slots (pgdir : PgDir) (slots : SlotTable) :
    (∀ pn pte, pn < NPGS → pgdir pn = some pte → ptePresent pte = false → pte ≠ 0 →
      PTE_ADDR pte >>> 12 < NSLOTS →
      ((swapFree pgdir slots).1 (PTE_ADDR pte >>> 12)).is_free = true ∧
      ((swapFree pgdir slots).1 (PTE_ADDR pte >>> 12)).page_perm = 0) ∧
    (swapFree pgdir slots).2 = pgdir := by
  refine ⟨?_, rfl⟩
  intro pn pte hpn hpte hnp hnz hlt
  exact foldl_swapFreeStep_frees pgdir (List.range NPGS) slots pn pte
    (List.mem_range.mpr hpn) hpte hnp hnz hlt

/-- Witness for the amended C3: scenario S6 — after cleanup of `pgdirC3`
the slots decoded from the three swapped leaves (slots 10, 11 and 12, per the
last three conjuncts) all report `free = true`. -/
theorem swapFree_releases_slots_witness :
    ((swapFree pgdirC3 slotsC3).1 (PTE_ADDR ((10 <<< 12) ||| 0x26) >>> 12)).is_free = true ∧
    ((swapFree pgdirC3 slotsC3).1 (PTE_ADDR ((11 <<< 12) ||| 0x26) >>> 12)).is_free = true ∧
    ((swapFree pgdirC3 slotsC3).1 (PTE_ADDR ((12 <<< 12) ||| 0x26) >>> 12)).is_free = true ∧
    PTE_ADDR ((10 <<< 12) ||| 0x26) >>> 12 = 10 ∧
    PTE_ADDR ((11 <<< 12) ||| 0x26) >>> 12 = 11 ∧
    PTE_ADDR ((12 <<< 12) ||| 0x26) >>> 12 = 12 := by
  have h := (swapFree_releases_slots pgdirC3 slotsC3).1
  exact ⟨(h 0 ((10 <<< 12) ||| 0x26) (by decide) (by decide) (by decide) (by decide)
      (by decide)).1,
    (h 1 ((11 <<< 12) ||| 0x26) (by decide) (by decide) (by decide) (by decide)
      (by decide)).1,
    (h 2 ((12 <<< 12) ||| 0x26) (by decide) (by decide) (by decide) (by decide)
      (by decide)).1,
    by decide, by decide, by decide⟩

/-! ## findproc lemmas -/

/-- Process-table entries the C loop does not `continue` past:
`!(p->state == UNUSED || p->pid < 1)`. -/
def eligible (p : Proc) : Prop := p.pstate ≠ PState.UNUSED ∧ 1 ≤ p.pid

instance (p : Proc) : Decidable (eligible p) := by
  unfold eligible
  infer_instance


lemma better_true_iff (p : Proc) (v : Option (Nat × Proc)) (m : Int) :
    better p v m = true ↔
      m < p.rss ∨ (p.rss = m ∧ ∃ j w, v = some (j, w) ∧ p.pid < w.pid) := by
  cases v with
  | none =>
    simp only [better, Bool.or_eq_true, Bool.and_eq_true, decide_eq_true_eq]
    constructor
    · rintro (h | ⟨_, h⟩)
      · exact Or.inl h
      · cases h
    · rintro (h | ⟨h1, j, w, hw, h2⟩)
      · exact Or.inl h
      · cases hw
  | some jw =>
    rcases jw with ⟨j, w⟩
    simp only [better, Bool.or_eq_true, Bool.and_eq_true, decide_eq_true_eq]
    constructor
    · rintro (h | ⟨h1, h2⟩)
      · exact Or.inl h
      · exact Or.inr ⟨h1, j, w, rfl, h2⟩
    · rintro (h | ⟨h1, j', w', hw, h2⟩)
      · exact Or.inl h
      · rw [Option.some.injEq, Prod.mk.injEq] at hw
        obtain ⟨hw1, hw2⟩ := hw
        subst hw2
        exact Or.inr ⟨h1, h2⟩

lemma findprocGo_some_stays :
    ∀ (l : List (Nat × Proc)) (x : Nat × Proc) (m : Int),
      findprocGo l (some x) m ≠ none := by
  intro l
  induction l with
  | nil => intro x m h; cases h
  | cons hd rest ih =>
    intro x m
    rcases hd with ⟨i, p⟩
    simp only [findprocGo]
    split
    · exact ih x m
    · split
      · exact ih (i, p) p.rss
      · exact ih x m

lemma findprocGo_eq_none :
    ∀ (l : List (Nat × Proc)) (v : Option (Nat × Proc)) (m : Int),
      (findprocGo l v m = none ↔
        v = none ∧ ∀ j q, (j, q) ∈ l → eligible q → q.rss ≤ m) := by
  intro l
  induction l with
  | nil =>
    intro v m
    simp only [findprocGo]
    constructor
    · intro h
      exact ⟨h, fun j q hq => absurd hq (List.not_mem_nil _)⟩
    · exact fun h => h.1
  | cons hd rest ih =>
    intro v m
    rcases hd with ⟨i, p⟩
    simp only [findprocGo]
    by_cases hskip : p.pstate = PState.UNUSED ∨ p.pid < 1
    · rw [if_pos hskip, ih v m]
      have hne : ¬ eligible p := by
        intro hel
        rcases hskip with h | h
        · exact hel.1 h
        · have := hel.2; omega
      constructor
      · rintro ⟨hv, hall⟩
        refine ⟨hv, fun j q hq helig => ?_⟩
        rcases List.mem_cons.mp hq with hq | hq
        · rw [Prod.mk.injEq] at hq
          obtain ⟨hq1, hq2⟩ := hq
          subst hq2
          exact absurd helig hne
        · exact hall j q hq helig
      · rintro ⟨hv, hall⟩
        exact ⟨hv, fun j q hq h => hall j q (List.mem_cons_of_mem _ hq) h⟩
    · rw [if_neg hskip]
      have helig : eligible p :=
        ⟨fun h => hskip (Or.inl h), by by_contra h; exact hskip (Or.inr (by omega))⟩
      by_cases hb : better p v m = true
      · rw [if_pos hb]
        constructor
        · intro h
          exact absurd h (findprocGo_some_stays rest (i, p) p.rss)
        · rintro ⟨hv, hall⟩
          subst hv
          rcases (better_true_iff p none m).mp hb with hlt | ⟨_, j, w, hw, _⟩
          · have := hall i p (List.mem_cons_self _ _) helig
            omega
          · cases hw
      · rw [if_neg hb, ih v m]
        have hble : p.rss ≤ m := by
          by_contra hc
          exact hb ((better_true_iff p v m).mpr (Or.inl (by omega)))
        constructor
        · rintro ⟨hv, hall⟩
          refine ⟨hv, fun j q hq hel => ?_⟩
          rcases List.mem_cons.mp hq with hq | hq
          · rw [Prod.mk.injEq] at hq
            obtain ⟨hq1, hq2⟩ := hq
            subst hq2
            exact hble
          · exact hall j q hq hel
        · rintro ⟨hv, hall⟩
          exact ⟨hv, fun j q hq h => hall j q (List.mem_cons_of_mem _ hq) h⟩

lemma findprocGo_some_spec :
    ∀ (l : List (Nat × Proc)) (v : Option (Nat × Proc)) (m : Int) (i : Nat) (p : Proc),
      (∀ j w, v = some (j, w) → w.rss = m ∧ eligible w) →
      findprocGo l v m = some (i, p) →
      eligible p ∧ m ≤ p.rss ∧ (v = none → m < p.rss) ∧
      ((i, p) ∈ l ∨ v = some (i, p)) ∧
      (∀ j q, (j, q) ∈ l → eligible q →
        q.rss ≤ p.rss ∧ (q.rss = p.rss → p.pid ≤ q.pid)) ∧
      (∀ j w, v = some (j, w) → w.rss ≤ p.rss ∧ (w.rss = p.rss → p.pid ≤ w.pid)) := by
  intro l
  induction l with
  | nil =>
    intro v m i p hv hout
    simp only [findprocGo] at hout
    obtain ⟨hrss, helig⟩ := hv i p hout
    refine ⟨helig, by omega, ?_, Or.inr hout, ?_, ?_⟩
    · intro h
      rw [h] at hout
      cases hout
    · intro j q hq
      cases hq
    · intro j w hw
      rw [hout, Option.some.injEq, Prod.mk.injEq] at hw
      obtain ⟨hw1, hw2⟩ := hw
      subst hw2
      exact ⟨le_refl _, fun _ => le_refl _⟩
  | cons hd rest ih =>
    intro v m i p hv hout
    rcases hd with ⟨i0, q⟩
    simp only [findprocGo] at hout
    by_cases hskip : q.pstate = PState.UNUSED ∨ q.pid < 1
    · rw [if_pos hskip] at hout
      have hne : ¬ eligible q := by
        intro hel
        rcases hskip with h | h
        · exact hel.1 h
        · have := hel.2; omega
      obtain ⟨h1, h2, h3, h4, h5, h6⟩ := ih v m i p hv hout
      refine ⟨h1, h2, h3, ?_, ?_, h6⟩
      · rcases h4 with h4 | h4
        · exact Or.inl (List.mem_cons_of_mem _ h4)
        · exact Or.inr h4
      · intro j r hr hel
        rcases List.mem_cons.mp hr with hr | hr
        · rw [Prod.mk.injEq] at hr
          obtain ⟨hr1, hr2⟩ := hr
          subst hr2
          exact absurd hel hne
        · exact h5 j r hr hel
    · rw [if_neg hskip] at hout
      have heligq : eligible q :=
        ⟨fun h => hskip (Or.inl h), by by_contra h; exact hskip (Or.inr (by omega))⟩
      by_cases hb : better q v m = true
      · rw [if_pos hb] at hout
        obtain ⟨h1, h2, h3, h4, h5, h6⟩ := ih (some (i0, q)) q.rss i p
          (by
            intro j w hw
            rw [Option.some.injEq, Prod.mk.injEq] at hw
            obtain ⟨hw1, hw2⟩ := hw
            subst hw2
            exact ⟨rfl, heligq⟩) hout
        have hq := h6 i0 q rfl
        have hmle : m ≤ q.rss := by
          rcases (better_true_iff q v m).mp hb with h | ⟨h, _⟩
          · omega
          · omega
        refine ⟨h1, by have := hq.1; omega, ?_, ?_, ?_, ?_⟩
        · intro hvn
          subst hvn
          rcases (better_true_iff q none m).mp hb with h | ⟨_, j, w, hw, _⟩
          · have := hq.1; omega
          · cases hw
        · rcases h4 with h4 | h4
          · exact Or.inl (List.mem_cons_of_mem _ h4)
          · rw [Option.some.injEq] at h4
            exact Or.inl (List.mem_cons.mpr (Or.inl h4.symm))
        · intro j r hr hel
          rcases List.mem_cons.mp hr with hr | hr
          · rw [Prod.mk.injEq] at hr
            obtain ⟨hr1, hr2⟩ := hr
            subst hr2
            exact hq
          · exact h5 j r hr hel
        · intro j w hw
          obtain ⟨hwr, hwe⟩ := hv j w hw
          constructor
          · have := hq.1; omega
          · intro hweq
            have hqr : q.rss = p.rss := by have := hq.1; omega
            have hppid : p.pid ≤ q.pid := hq.2 hqr
            rcases (better_true_iff q v m).mp hb with h | ⟨_, j', w', hw', hpid⟩
            · have := hq.1; omega
            · rw [hw, Option.some.injEq, Prod.mk.injEq] at hw'
              obtain ⟨hh1, hh2⟩ := hw'
              subst hh2
              omega
      · rw [if_neg hb] at hout
        have hble : q.rss ≤ m := by
          by_contra hc
          exact hb ((better_true_iff q v m).mpr (Or.inl (by omega)))
        obtain ⟨h1, h2, h3, h4, h5, h6⟩ := ih v m i p hv hout
        refine ⟨h1, h2, h3, ?_, ?_, h6⟩
        · rcases h4 with h4 | h4
          · exact Or.inl (List.mem_cons_of_mem _ h4)
          · exact Or.inr h4
        · intro j r hr hel
          rcases List.mem_cons.mp hr with hr | hr
          · rw [Prod.mk.injEq] at hr
            obtain ⟨hr1, hr2⟩ := hr
            rw [hr2]
            constructor
            · omega
            · intro hteq
              have hmeq : q.rss = m := by omega
              rcases hvv : v with _ | jw
              · have := h3 hvv
                omega
              · rcases jw with ⟨j0, w0⟩
                obtain ⟨hw0r, hw0e⟩ := hv j0 w0 hvv
                have hnpid : ¬ q.pid < w0.pid := by
                  intro hc
                  exact hb ((better_true_iff q v m).mpr
                    (Or.inr ⟨hmeq, j0, w0, hvv, hc⟩))
                have hw0 := h6 j0 w0 hvv
                have hple : p.pid ≤ w0.pid := hw0.2 (by omega)
                omega
          · exact h5 j r hr hel

lemma mem_enum_of_mem {ps : List Proc} {p : Proc} (hp : p ∈ ps) :
    ∃ n, (n, p) ∈ ps.enum ∧ ps.get? n = some p := by
  obtain ⟨n, hn, hg⟩ := List.mem_iff_getElem.mp hp
  have hmem : ps.enum[n]? = some (n, p) := by
    rw [List.getElem?_enum, List.getElem?_eq_getElem hn, hg]
    rfl
  refine ⟨n, List.getElem?_mem hmem, ?_⟩
  rw [List.get?_eq_getElem?, List.getElem?_eq_getElem hn, hg]

/-! ## Claim C7 -/

/-- C7: `findproc` skips `UNUSED` entries and entries with non-positive pid;
it returns `none` exactly when no eligible process has positive rss (the
comparator starts from `max_rss = 0` and uses strict `>`); otherwise it
returns an eligible process at its table index, with positive and maximal
rss among eligible processes, and on an rss tie its pid is the smallest —
the tie comparison in the code only firing once a candidate is recorded. -/
theorem findproc_spec (ps : List Proc) :
    (findproc ps = none ↔ ∀ p ∈ ps, eligible p → p.rss ≤ 0) ∧
    (∀ i p, findproc ps = some (i, p) →
      ps.get? i = some p ∧ eligible p ∧ 0 < p.rss ∧
      ∀ q ∈ ps, eligible q → q.rss ≤ p.rss ∧ (q.rss = p.rss → p.pid ≤ q.pid)) := by
  constructor
  · rw [findproc, findprocGo_eq_none]
    constructor
    · rintro ⟨_, hall⟩ p hp hel
      obtain ⟨n, hmem, _⟩ := mem_enum_of_mem hp
      exact hall n p hmem hel
    · intro hall
      refine ⟨rfl, fun j q hq hel => ?_⟩
      obtain ⟨hlt, hq2⟩ := List.mem_enum hq
      rw [hq2]
      rw [hq2] at hel
      exact hall _ (List.getElem_mem hlt) hel
  · intro i p hout
    rw [findproc] at hout
    obtain ⟨h1, h2, h3, h4, h5, h6⟩ :=
      findprocGo_some_spec ps.enum none 0 i p (by intro j w h; cases h) hout
    have hpos : (0 : Int) < p.rss := h3 rfl
    rcases h4 with h4 | h4
    · obtain ⟨hlt, hp⟩ := List.mem_enum h4
      refine ⟨?_, h1, hpos, ?_⟩
      · rw [List.get?_eq_getElem?, List.getElem?_eq_getElem hlt, hp]
      · intro q hq hel
        obtain ⟨n, hmem, _⟩ := mem_enum_of_mem hq
        exact h5 n q hmem hel
    · cases h4

/-- Two runnable processes with identical rss 50 and pids 12 and 7 (in that
table order), for scenario S2. -/
def procA : Proc := { pstate := PState.RUNNABLE, pid := 12, rss := 50, pgdir := fun _ => none }

def procB : Proc := { pstate := PState.RUNNABLE, pid := 7, rss := 50, pgdir := fun _ => none }

/-- Witness for C7 (scenario S2): with rss tied at 50, the victim is the
process with pid 7, and its rss is maximal with minimal pid. -/
theorem findproc_spec_witness :
    findproc [procA, procB] = some (1, procB) ∧
    [procA, procB].get? 1 = some procB ∧ eligible procB ∧ 0 < procB.rss ∧
    procB.pid = 7 ∧ procA.pid = 12 ∧ procA.rss = procB.rss ∧ procB.pid ≤ procA.pid := by
  have hout : findproc [procA, procB] = some (1, procB) := rfl
  have h := (findproc_spec [procA, procB]).2 1 procB hout
  refine ⟨hout, h.1, h.2.1, h.2.2.1, rfl, rfl, rfl, ?_⟩
  exact (h.2.2.2 procA (List.mem_cons_self _ _) (by decide)).2 rfl

/-! ## scanPT and clearA lemmas -/

/-- An entry the `findpage` scans stop at: a leaf that is present, user and
satisfies the pass predicate. -/
def goodPTE (pred : Nat → Bool) (pgdir : PgDir) (pn : Nat) : Prop :=
  ∃ pte, pgdir pn = some pte ∧ (ptePresent pte && pteUser pte && pred pte) = true

lemma scanPT_some (pgdir : PgDir) (pred : Nat → Bool) :
    ∀ fuel i va pa, scanPT pgdir pred i fuel = some (va, pa) →
      ∃ pn pte, va = pn * PGSIZE ∧ pa = PTE_ADDR pte ∧ i ≤ pn ∧ pn < i + fuel ∧
        pgdir pn = some pte ∧ (ptePresent pte && pteUser pte && pred pte) = true ∧
        ∀ k, i ≤ k → k < pn → ¬ goodPTE pred pgdir k := by
  intro fuel
  induction fuel with
  | zero => intro i va pa h; simp [scanPT] at h
  | succ n ih =>
    intro i va pa h
    cases hpg : pgdir i with
    | none =>
      simp only [scanPT, hpg] at h
      obtain ⟨pn, pte, h1, h2, h3, h4, h5, h6, h7⟩ := ih (i + 1) va pa h
      refine ⟨pn, pte, h1, h2, by omega, by omega, h5, h6, ?_⟩
      intro k hk1 hk2 hg
      by_cases hk : k = i
      · subst hk
        obtain ⟨pte2, hpte2, _⟩ := hg
        rw [hpg] at hpte2
        cases hpte2
      · exact h7 k (by omega) hk2 hg
    | some pte =>
      simp only [scanPT, hpg] at h
      by_cases hcond : (ptePresent pte && pteUser pte && pred pte) = true
      · rw [if_pos hcond] at h
        rw [Option.some.injEq, Prod.mk.injEq] at h
        obtain ⟨h1, h2⟩ := h
        exact ⟨i, pte, h1.symm, h2.symm, le_refl _, by omega, hpg, hcond,
          fun k hk1 hk2 => absurd hk1 (by omega)⟩
      · rw [if_neg hcond] at h
        obtain ⟨pn, pte2, h1, h2, h3, h4, h5, h6, h7⟩ := ih (i + 1) va pa h
        refine ⟨pn, pte2, h1, h2, by omega, by omega, h5, h6, ?_⟩
        intro k hk1 hk2 hg
        by_cases hk : k = i
        · subst hk
          obtain ⟨pte3, hpte3, hc3⟩ := hg
          rw [hpg, Option.some.injEq] at hpte3
          subst hpte3
          exact hcond hc3
        · exact h7 k (by omega) hk2 hg

lemma scanPT_none (pgdir : PgDir) (pred : Nat → Bool) :
    ∀ fuel i, scanPT pgdir pred i fuel = none ↔
      ∀ k, i ≤ k → k < i + fuel → ¬ goodPTE pred pgdir k := by
  intro fuel
  induction fuel with
  | zero =>
    intro i
    constructor
    · intro _ k h1 h2
      exact absurd h2 (by omega)
    · intro _
      rfl
  | succ n ih =>
    intro i
    cases hpg : pgdir i with
    | none =>
      simp only [scanPT, hpg]
      rw [ih (i + 1)]
      constructor
      · intro h k hk1 hk2
        by_cases hk : k = i
        · subst hk
          rintro ⟨pte2, hpte2, _⟩
          rw [hpg] at hpte2
          cases hpte2
        · exact h k (by omega) (by omega)
      · intro h k hk1 hk2
        exact h k (by omega) (by omega)
    | some pte =>
      simp only [scanPT, hpg]
      by_cases hcond : (ptePresent pte && pteUser pte && pred pte) = true
      · rw [if_pos hcond]
        constructor
        · intro h; cases h
        · intro h
          exact absurd ⟨pte, hpg, hcond⟩ (h i (le_refl _) (by omega))
      · rw [if_neg hcond]
        rw [ih (i + 1)]
        constructor
        · intro h k hk1 hk2
          by_cases hk : k = i
          · subst hk
            rintro ⟨pte2, hpte2, hc2⟩
            rw [hpg, Option.some.injEq] at hpte2
            subst hpte2
            exact hcond hc2
          · exact h k (by omega) (by omega)
        · intro h k hk1 hk2
          exact h k (by omega) (by omega)

lemma scanPT_congr (pgdirB pgdir : PgDir) (pred : Nat → Bool) :
    ∀ fuel i, (∀ k, i ≤ k → k < i + fuel → pgdirB k = pgdir k) →
      scanPT pgdirB pred i fuel = scanPT pgdir pred i fuel := by
  intro fuel
  induction fuel with
  | zero => intro i _; rfl
  | succ n ih =>
    intro i hag
    have h0 : pgdirB i = pgdir i := hag i (le_refl _) (by omega)
    have hrest : scanPT pgdirB pred (i + 1) n = scanPT pgdir pred (i + 1) n :=
      ih (i + 1) (fun k h1 h2 => hag k (by omega) (by omega))
    simp only [scanPT, h0]
    split
    · exact hrest
    · split
      · rfl
      · exact hrest

/-- Flag bits below 12 survive the `~PTE_A` mask except the accessed bit. -/
lemma ptePresent_clearA (pte : Nat) :
    ptePresent (pte &&& notMask PTE_A) = ptePresent pte := by
  show (pte &&& notMask PTE_A &&& PTE_P != 0) = (pte &&& PTE_P != 0)
  rw [Nat.land_assoc, (by decide : notMask PTE_A &&& PTE_P = PTE_P)]

lemma pteUser_clearA (pte : Nat) :
    pteUser (pte &&& notMask PTE_A) = pteUser pte := by
  show (pte &&& notMask PTE_A &&& PTE_U != 0) = (pte &&& PTE_U != 0)
  rw [Nat.land_assoc, (by decide : notMask PTE_A &&& PTE_U = PTE_U)]

lemma pteAccessed_clearA (pte : Nat) :
    pteAccessed (pte &&& notMask PTE_A) = false := by
  show (pte &&& notMask PTE_A &&& PTE_A != 0) = false
  rw [Nat.land_assoc, (by decide : notMask PTE_A &&& PTE_A = 0), Nat.and_zero]
  rfl

lemma PTE_ADDR_clearA (pte : Nat) :
    PTE_ADDR (pte &&& notMask PTE_A) = PTE_ADDR pte := by
  show pte &&& notMask PTE_A &&& notMask 0xFFF = pte &&& notMask 0xFFF
  rw [Nat.land_assoc, (by decide : notMask PTE_A &&& notMask 0xFFF = notMask 0xFFF)]

/-- Reading a cleared page directory back: a present+user entry of
`clearA pgdir` at a low page number is the `~A`-masked image of a
present+user entry of `pgdir`. -/
lemma clearA_entry (pgdir : PgDir) (pn : Nat) (pte0 : Nat) (hpn : pn < NPGS)
    (h : clearA pgdir pn = some pte0)
    (hP : ptePresent pte0 = true) (hU : pteUser pte0 = true) :
    ∃ pte, pgdir pn = some pte ∧ ptePresent pte = true ∧ pteUser pte = true ∧
      pte0 = pte &&& notMask PTE_A ∧ PTE_ADDR pte0 = PTE_ADDR pte := by
  rw [clearA, if_pos hpn] at h
  cases hpg : pgdir pn with
  | none =>
    simp only [hpg] at h
    cases h
  | some pte =>
    simp only [hpg] at h
    by_cases hc : (ptePresent pte && pteUser pte) = true
    · rw [if_pos hc, Option.some.injEq] at h
      subst h
      rw [Bool.and_eq_true] at hc
      exact ⟨pte, rfl, hc.1, hc.2, rfl, PTE_ADDR_clearA pte⟩
    · rw [if_neg hc, Option.some.injEq] at h
      subst h
      rw [Bool.and_eq_true] at hc
      exact absurd ⟨hP, hU⟩ hc


lemma goodPTE_passA {pgdir : PgDir} {pn pte : Nat} (hpte : pgdir pn = some pte)
    (hP : ptePresent pte = true) (hU : pteUser pte = true)
    (hA : pteAccessed pte = false) :
    goodPTE (fun pte => !pteAccessed pte) pgdir pn :=
  ⟨pte, hpte, by simp [hP, hU, hA]⟩

lemma goodPTE_passA_elim {pgdir : PgDir} {pn : Nat}
    (h : goodPTE (fun pte => !pteAccessed pte) pgdir pn) :
    ∃ pte, pgdir pn = some pte ∧ ptePresent pte = true ∧ pteUser pte = true ∧
      pteAccessed pte = false := by
  obtain ⟨pte, hpte, hcond⟩ := h
  rw [Bool.and_eq_true, Bool.and_eq_true] at hcond
  obtain ⟨⟨hP, hU⟩, hpred⟩ := hcond
  rw [Bool.not_eq_true'] at hpred
  exact ⟨pte, hpte, hP, hU, hpred⟩

/-! ## Claim C8 -/

/-- C8: `findpage` scans user virtual addresses `[0, KERNBASE)` in ascending
page strides.  First conjunct: if some present+user leaf has `A` clear, the
scan returns the lowest-VA such page without touching the directory or the
TLB.  Second conjunct: if every present+user leaf has `A` set, the call
clears `A` on every present+user entry, flushes the TLB (the Boolean), and
returns the lowest-VA present+user page.  The remaining conjuncts pin what
is never considered: entries at or above `KERNBASE` and entries lacking `P`
or `U` are returned to the caller unmodified, and the result depends only on
the directory below `KERNBASE`. -/
theorem findpage_spec (pgdir : PgDir) :
    ((∃ pn pte, pn < NPGS ∧ pgdir pn = some pte ∧ ptePresent pte = true ∧
        pteUser pte = true ∧ pteAccessed pte = false) →
      (findpage pgdir).2.1 = pgdir ∧ (findpage pgdir).2.2 = false ∧
      ∃ pn pte, (findpage pgdir).1 = some (pn * PGSIZE, PTE_ADDR pte) ∧ pn < NPGS ∧
        pgdir pn = some pte ∧ ptePresent pte = true ∧ pteUser pte = true ∧
        pteAccessed pte = false ∧
        ∀ k pte2, k < pn → pgdir k = some pte2 →
          ¬(ptePresent pte2 = true ∧ pteUser pte2 = true ∧ pteAccessed pte2 = false)) ∧
    ((∀ pn pte, pn < NPGS → pgdir pn = some pte → ptePresent pte = true →
        pteUser pte = true → pteAccessed pte = true) →
      (findpage pgdir).2.2 = true ∧
      (∀ pn pte, pn < NPGS → pgdir pn = some pte → ptePresent pte = true →
        pteUser pte = true →
        (findpage pgdir).2.1 pn = some (pte &&& notMask PTE_A) ∧
        pteAccessed (pte &&& notMask PTE_A) = false) ∧
      ((∃ pn pte, pn < NPGS ∧ pgdir pn = some pte ∧ ptePresent pte = true ∧
          pteUser pte = true) →
        ∃ pn pte, (findpage pgdir).1 = some (pn * PGSIZE, PTE_ADDR pte) ∧ pn < NPGS ∧
          pgdir pn = some pte ∧ ptePresent pte = true ∧ pteUser pte = true ∧
          ∀ k pte2, k < pn → pgdir k = some pte2 →
            ¬(ptePresent pte2 = true ∧ pteUser pte2 = true))) ∧
    (∀ pn, NPGS ≤ pn → (findpage pgdir).2.1 pn = pgdir pn) ∧
    (∀ pn, pgdir pn = none → (findpage pgdir).2.1 pn = none) ∧
    (∀ pn pte, pgdir pn = some pte → ¬(ptePresent pte = true ∧ pteUser pte = true) →
      (findpage pgdir).2.1 pn = some pte) ∧
    (∀ pgdirB : PgDir, (∀ k, k < NPGS → pgdirB k = pgdir k) →
      (findpage pgdirB).1 = (findpage pgdir).1 ∧
      (findpage pgdirB).2.2 = (findpage pgdir).2.2) := by
  have hclearA_pt : ∀ (X : PgDir) (pn pte : Nat), pn < NPGS → X pn = some pte →
      ptePresent pte = true → pteUser pte = true →
      clearA X pn = some (pte &&& notMask PTE_A) := by
    intro X pn pte hpn hpte hP hU
    rw [clearA, if_pos hpn]
    simp only [hpte]
    rw [if_pos (by rw [hP, hU]; rfl)]
  refine ⟨?_, ?_, ?_, ?_, ?_, ?_⟩
  · rintro ⟨pn1, pte1, hpn1, hpte1, hP1, hU1, hA1⟩
    rcases hscan : scanPT pgdir (fun pte => !pteAccessed pte) 0 NPGS with _ | ⟨va, pa⟩
    · exact absurd (goodPTE_passA hpte1 hP1 hU1 hA1)
        ((scanPT_none pgdir _ NPGS 0).mp hscan pn1 (Nat.zero_le _) (by omega))
    · have hfp : findpage pgdir = (some (va, pa), pgdir, false) := by
        simp only [findpage, hscan]
      obtain ⟨pn, pte, h1, h2, _, h4, h5, h6, h7⟩ :=
        scanPT_some pgdir _ NPGS 0 va pa hscan
      obtain ⟨pte', hpte', hP, hU, hA⟩ := goodPTE_passA_elim ⟨pte, h5, h6⟩
      rw [h5, Option.some.injEq] at hpte'
      subst hpte'
      refine ⟨by rw [hfp], by rw [hfp], pn, pte, ?_, by omega, h5, hP, hU, hA, ?_⟩
      · rw [hfp, h1, h2]
      · intro k pte2 hk hpte2 hconj
        exact h7 k (Nat.zero_le _) hk
          (goodPTE_passA hpte2 hconj.1 hconj.2.1 hconj.2.2)
  · intro hAll
    have hscanN : scanPT pgdir (fun pte => !pteAccessed pte) 0 NPGS = none := by
      rw [scanPT_none]
      intro k _ hk hg
      obtain ⟨pte, hpte, hP, hU, hA⟩ := goodPTE_passA_elim hg
      rw [hAll k pte (by omega) hpte hP hU] at hA
      cases hA
    have hfp : findpage pgdir =
        (scanPT (clearA pgdir) (fun _ => true) 0 NPGS, clearA pgdir, true) := by
      simp only [findpage, hscanN]
    refine ⟨by rw [hfp], ?_, ?_⟩
    · intro pn pte hpn hpte hP hU
      rw [hfp]
      exact ⟨hclearA_pt pgdir pn pte hpn hpte hP hU, pteAccessed_clearA pte⟩
    · rintro ⟨pn1, pte1, hpn1, hpte1, hP1, hU1⟩
      have hgood : goodPTE (fun _ => true) (clearA pgdir) pn1 :=
        ⟨pte1 &&& notMask PTE_A, hclearA_pt pgdir pn1 pte1 hpn1 hpte1 hP1 hU1,
          by rw [ptePresent_clearA, pteUser_clearA, hP1, hU1]; rfl⟩
      rcases hscanB : scanPT (clearA pgdir) (fun _ => true) 0 NPGS with _ | ⟨va, pa⟩
      · exact absurd hgood
          ((scanPT_none (clearA pgdir) _ NPGS 0).mp hscanB pn1 (Nat.zero_le _) (by omega))
      · obtain ⟨pn, pte0, h1, h2, _, h4, h5, h6, h7⟩ :=
          scanPT_some (clearA pgdir) _ NPGS 0 va pa hscanB
        rw [Bool.and_eq_true, Bool.and_eq_true] at h6
        obtain ⟨⟨hP0, hU0⟩, _⟩ := h6
        obtain ⟨pte, hpte, hP, hU, hmask, haddr⟩ :=
          clearA_entry pgdir pn pte0 (by omega) h5 hP0 hU0
        refine ⟨pn, pte, ?_, by omega, hpte, hP, hU, ?_⟩
        · rw [hfp]
          show scanPT (clearA pgdir) (fun _ => true) 0 NPGS = _
          rw [hscanB, h1, h2, haddr]
        · intro k pte2 hk hpte2 hconj
          refine h7 k (Nat.zero_le _) hk ?_
          exact ⟨pte2 &&& notMask PTE_A,
            hclearA_pt pgdir k pte2 (by omega) hpte2 hconj.1 hconj.2,
            by rw [ptePresent_clearA, pteUser_clearA, hconj.1, hconj.2]; rfl⟩
  · intro pn hpn
    rcases hscan : scanPT pgdir (fun pte => !pteAccessed pte) 0 NPGS with _ | r
    · have hfp : (findpage pgdir).2.1 = clearA pgdir := by simp only [findpage, hscan]
      rw [hfp, clearA, if_neg (by omega)]
    · have hfp : (findpage pgdir).2.1 = pgdir := by simp only [findpage, hscan]
      rw [hfp]
  · intro pn hnone
    rcases hscan : scanPT pgdir (fun pte => !pteAccessed pte) 0 NPGS with _ | r
    · have hfp : (findpage pgdir).2.1 = clearA pgdir := by simp only [findpage, hscan]
      rw [hfp, clearA]
      by_cases hpn : pn < NPGS
      · rw [if_pos hpn]
        simp only [hnone]
      · rw [if_neg hpn]
        exact hnone
    · have hfp : (findpage pgdir).2.1 = pgdir := by simp only [findpage, hscan]
      rw [hfp]
      exact hnone
  · intro pn pte hpte hnot
    rcases hscan : scanPT pgdir (fun pte => !pteAccessed pte) 0 NPGS with _ | r
    · have hfp : (findpage pgdir).2.1 = clearA pgdir := by simp only [findpage, hscan]
      rw [hfp, clearA]
      by_cases hpn : pn < NPGS
      · rw [if_pos hpn]
        simp only [hpte]
        rw [if_neg (by
          intro hc
          rw [Bool.and_eq_true] at hc
          exact hnot ⟨hc.1, hc.2⟩)]
      · rw [if_neg hpn]
        exact hpte
    · have hfp : (findpage pgdir).2.1 = pgdir := by simp only [findpage, hscan]
      rw [hfp]
      exact hpte
  · intro pgdirB hag
    have hA : scanPT pgdirB (fun pte => !pteAccessed pte) 0 NPGS =
        scanPT pgdir (fun pte => !pteAccessed pte) 0 NPGS :=
      scanPT_congr pgdirB pgdir _ NPGS 0 (fun k _ hk => hag k (by omega))
    have hclr : ∀ k, 0 ≤ k → k < 0 + NPGS → clearA pgdirB k = clearA pgdir k := by
      intro k _ hk
      rw [clearA, clearA, if_pos (by omega : k < NPGS), if_pos (by omega : k < NPGS),
        hag k (by omega)]
    rcases hscan : scanPT pgdir (fun pte => !pteAccessed pte) 0 NPGS with _ | r
    · rw [hscan] at hA
      have hB : scanPT (clearA pgdirB) (fun _ => true) 0 NPGS =
          scanPT (clearA pgdir) (fun _ => true) 0 NPGS :=
        scanPT_congr (clearA pgdirB) (clearA pgdir) _ NPGS 0 hclr
      constructor
      · show (findpage pgdirB).1 = (findpage pgdir).1
        simp only [findpage, hA, hscan, hB]
      · simp only [findpage, hA, hscan]
    · rw [hscan] at hA
      constructor
      · simp only [findpage, hA, hscan]
      · simp only [findpage, hA, hscan]

/-- Ten user pages (page numbers 0..9), all present, user and accessed
(`0x5027 = frame 0x5000 | P|W|U|A`), for scenario S3. -/
def pgdirS3 : PgDir := fun pn => if pn < 10 then some 0x5027 else none

/-- Witness for C8 (scenario S3): with all ten pages accessed, `findpage`
flushes the TLB, returns the lowest-VA page (va 0, frame 0x5000), and the
sampled pages 0, 5 and 9 now carry `A = 0` (`0x5007`). -/
theorem findpage_spec_witness :
    (findpage pgdirS3).2.2 = true ∧
    (findpage pgdirS3).1 = some (0 * PGSIZE, PTE_ADDR 0x5027) ∧
    (findpage pgdirS3).2.1 0 = some (0x5027 &&& notMask PTE_A) ∧
    (findpage pgdirS3).2.1 5 = some (0x5027 &&& notMask PTE_A) ∧
    (findpage pgdirS3).2.1 9 = some (0x5027 &&& notMask PTE_A) ∧
    pteAccessed (0x5027 &&& notMask PTE_A) = false ∧
    PTE_ADDR 0x5027 = 0x5000 ∧ (0x5027 &&& notMask PTE_A) = 0x5007 := by
  have hALL : ∀ pn pte, pn < NPGS → pgdirS3 pn = some pte → ptePresent pte = true →
      pteUser pte = true → pteAccessed pte = true := by
    intro pn pte _ hsome _ _
    by_cases h : pn < 10
    · rw [pgdirS3, if_pos h, Option.some.injEq] at hsome
      rw [← hsome]
      decide
    · rw [pgdirS3, if_neg h] at hsome
      cases hsome
  obtain ⟨hfl, hent, hex⟩ := (findpage_spec pgdirS3).2.1 hALL
  obtain ⟨pn, pte, hres, hlt, hsome, hP, hU, hmin⟩ :=
    hex ⟨0, 0x5027, by decide, by decide, by decide, by decide⟩
  have hpn0 : pn = 0 := by
    by_contra hne
    exact hmin 0 0x5027 (by omega) (by decide) ⟨by decide, by decide⟩
  subst hpn0
  have hpte : pte = 0x5027 := by
    have h0 : pgdirS3 0 = some 0x5027 := by decide
    rw [h0, Option.some.injEq] at hsome
    exact hsome.symm
  subst hpte
  exact ⟨hfl, hres,
    (hent 0 0x5027 (by decide) (by decide) (by decide) (by decide)).1,
    (hent 5 0x5027 (by decide) (by decide) (by decide) (by decide)).1,
    (hent 9 0x5027 (by decide) (by decide) (by decide) (by decide)).1,
    by decide, by decide, by decide⟩

/-! ## Characterization of a successful swappage_in -/

/-- When the faulting leaf is a swapped entry naming a used slot `s` and a
frame is available, `swappage_in` succeeds: the new frame is filled from the
slot's 8 blocks, the installed leaf is `pa | (page_perm | P) | P`, and the
slot is released. -/
lemma swappage_in_success_spec (st : KState) (cur : Nat) (pgdir : PgDir)
    (va pte s pa2 : Nat) (rest : List Nat)
    (hva : va < 2 ^ 32)
    (hpte : pgdir (va / PGSIZE) = some pte)
    (hnp : ptePresent pte = false)
    (hdec : PTE_ADDR pte >>> 12 = s)
    (hs : s < NSLOTS)
    (hused : (st.slots s).is_free = false)
    (hfree : st.freeList = pa2 :: rest) :
    (swappage_in st cur pgdir va).1 = 0 ∧
    (∀ off, off < PGSIZE → (swappage_in st cur pgdir va).2.1.frames pa2 off =
      st.disk (2 + s * 8 + off / BSIZE) (off % BSIZE)) ∧
    (swappage_in st cur pgdir va).2.2 (va / PGSIZE) =
      some (pa2 ||| ((st.slots s).page_perm ||| PTE_P) ||| PTE_P) ∧
    ((swappage_in st cur pgdir va).2.1.slots s).is_free = true ∧
    ((swappage_in st cur pgdir va).2.1.slots s).page_perm = 0 := by
  have hpn : PGROUNDDOWN va / PGSIZE = va / PGSIZE := PGROUNDDOWN_div va hva
  have hcond : ¬(NSLOTS ≤ s ∨ (st.slots s).is_free = true) := by
    rintro (h | h)
    · omega
    · rw [hused] at h
      cases h
  refine ⟨?_, ?_, ?_, ?_, ?_⟩ <;>
    simp only [swappage_in, hpn, hpte, hnp, Bool.false_eq_true, if_false, hdec,
      if_neg hcond, kallocK, hfree, swapInFinish]
  · intro off hoff
    simp [hoff]
  · simp
  · simp [freeslot, hs]
  · simp [freeslot, hs]

/-! ## Claim C5 -/

/-- C5 (round trip): evicting a present page with flags `F = pte & 0xFFF` and
4096-byte contents `st.frames pa` and then faulting it back in succeeds, the
restored frame (at the next free physical page `pa2`) holds the same 4096
bytes, and the installed leaf's low 12 flag bits are `F` with `P` set; the
slot used for the detour is free again afterwards.  Hypotheses: the walk
finds a present leaf for `va` (a 32-bit address), a slot is available, and a
page-aligned frame is on the freelist. -/
theorem swap_roundtrip (st : KState) (pgdir : PgDir) (cur va pa s pte pa2 : Nat)
    (rest : List Nat)
    (hva : va < 2 ^ 32)
    (hslot : (findslot st.slots).1 = some s)
    (hpte : pgdir (va / PGSIZE) = some pte)
    (hp : ptePresent pte = true)
    (hfree : st.freeList = pa2 :: rest)
    (halign : pa2 &&& 0xFFF = 0) :
    (swappageout st pgdir va pa).1 = 0 ∧
    (swappage_in (swappageout st pgdir va pa).2.1 cur
      (swappageout st pgdir va pa).2.2 va).1 = 0 ∧
    (∀ off, off < PGSIZE →
      (swappage_in (swappageout st pgdir va pa).2.1 cur
        (swappageout st pgdir va pa).2.2 va).2.1.frames pa2 off =
      st.frames pa off) ∧
    (∃ pte2,
      (swappage_in (swappageout st pgdir va pa).2.1 cur
        (swappageout st pgdir va pa).2.2 va).2.2 (va / PGSIZE) = some pte2 ∧
      pte2 &&& 0xFFF = (pte &&& 0xFFF) ||| PTE_P) ∧
    ((swappage_in (swappageout st pgdir va pa).2.1 cur
      (swappageout st pgdir va pa).2.2 va).2.1.slots s).is_free = true := by
  obtain ⟨hr1, hpg1, _, hperm, hused, _, hdisk, hfl, hfrm⟩ :=
    swappageout_present_spec st pgdir va pa s pte hslot hpte hp
  obtain ⟨_, hsLT, _, _⟩ := findslot_eq_some st.slots s hslot
  have hfP : (pte &&& notMask PTE_P &&& 0xFFF) &&& PTE_P = 0 := by
    rw [Nat.land_assoc, Nat.land_assoc,
      (by decide : notMask PTE_P &&& (0xFFF &&& PTE_P) = 0), Nat.and_zero]
  have hfM : (pte &&& notMask PTE_P &&& 0xFFF) &&& notMask 0xFFF = 0 := by
    rw [Nat.land_assoc, Nat.land_assoc,
      (by decide : notMask PTE_P &&& (0xFFF &&& notMask 0xFFF) = 0), Nat.and_zero]
  have hsP : (s <<< 12) &&& PTE_P = 0 := by
    rw [Nat.shiftLeft_eq, (by decide : (PTE_P : Nat) = 2 ^ 1 - 1),
      Nat.and_pow_two_sub_one_eq_mod]
    omega
  have hpres1 :
      ptePresent ((s <<< 12) ||| (pte &&& notMask PTE_P &&& 0xFFF)) = false := by
    show ((((s <<< 12) ||| (pte &&& notMask PTE_P &&& 0xFFF)) &&& PTE_P) != 0) = false
    rw [lor_land_distrib, hsP, hfP, Nat.or_zero]
    rfl
  have hs800 : s < 800 := hsLT
  have hs20 : s < 2 ^ 20 := lt_of_lt_of_le hs800 (by norm_num)
  have haddr1 :
      PTE_ADDR ((s <<< 12) ||| (pte &&& notMask PTE_P &&& 0xFFF)) >>> 12 = s := by
    show ((((s <<< 12) ||| (pte &&& notMask PTE_P &&& 0xFFF)) &&& notMask 0xFFF)) >>> 12 = s
    rw [lor_land_distrib, hfM, Nat.or_zero,
      land_himask_shift s hs20, shiftLeft_shiftRight_id]
  have hfl2 : (swappageout st pgdir va pa).2.1.freeList = pa2 :: rest := by
    rw [hfl, hfree]
  obtain ⟨hin1, hinfr, hinpg, hinfree, _⟩ :=
    swappage_in_success_spec (swappageout st pgdir va pa).2.1 cur
      (swappageout st pgdir va pa).2.2 va
      ((s <<< 12) ||| (pte &&& notMask PTE_P &&& 0xFFF)) s pa2 rest
      hva hpg1 hpres1 haddr1 hsLT hused hfl2
  refine ⟨hr1, hin1, ?_, ?_, hinfree⟩
  · intro off hoff
    rw [hinfr off hoff]
    have hoff4 : off < 4096 := hoff
    have hb1 : 2 + s * 8 ≤ 2 + s * 8 + off / BSIZE := Nat.le_add_right _ _
    have hb2 : 2 + s * 8 + off / BSIZE < 2 + s * 8 + 8 := by
      show 2 + s * 8 + off / 512 < 2 + s * 8 + 8
      omega
    have hb3 : off % BSIZE < BSIZE := by
      show off % 512 < 512
      omega
    rw [hdisk _ _ hb1 hb2 hb3]
    have harg : (2 + s * 8 + off / BSIZE - (2 + s * 8)) * BSIZE + off % BSIZE = off := by
      show (2 + s * 8 + off / 512 - (2 + s * 8)) * 512 + off % 512 = off
      omega
    rw [harg]
  · refine ⟨pa2 |||
      (((swappageout st pgdir va pa).2.1.slots s).page_perm ||| PTE_P) ||| PTE_P,
      hinpg, ?_⟩
    rw [hperm]
    rw [lor_land_distrib, lor_land_distrib, halign, Nat.zero_or, lor_land_distrib,
      Nat.land_assoc, (by decide : (0xFFF : Nat) &&& 0xFFF = 0xFFF),
      (by decide : (PTE_P : Nat) &&& 0xFFF = PTE_P), Nat.lor_assoc,
      (by decide : (PTE_P : Nat) ||| PTE_P = PTE_P)]

/-- Concrete state for the C5 witness: all slots free, a distinctive page
image in the frame at `0x1000`, and the aligned frame `0x5000` free. -/
def stC5 : KState :=
  { slots := swapInitSlots, disk := fun _ _ => 0,
    frames := fun q off => if q = 0x1000 then (off + 7) % 256 else 0,
    freeList := [0x5000], ptable := [],
    threshold := threshold0, npages_to_swap := npages0 }

/-- One present page at page number 3 with frame `0x1000` and flags
`P|W|U|A`. -/
def pgdirC5 : PgDir := fun pn => if pn = 3 then some (0x1000 ||| 0x27) else none

/-- Witness for C5: evicting the page at `va = 3*PGSIZE` and faulting it back
succeeds, byte 100 of the restored frame matches the original image, the
installed flags are the original low 12 bits with `P` set, and slot 0 is free
again. -/
theorem swap_roundtrip_witness :
    (swappageout stC5 pgdirC5 (3 * PGSIZE) 0x1000).1 = 0 ∧
    (swappage_in (swappageout stC5 pgdirC5 (3 * PGSIZE) 0x1000).2.1 0
      (swappageout stC5 pgdirC5 (3 * PGSIZE) 0x1000).2.2 (3 * PGSIZE)).1 = 0 ∧
    (swappage_in (swappageout stC5 pgdirC5 (3 * PGSIZE) 0x1000).2.1 0
      (swappageout stC5 pgdirC5 (3 * PGSIZE) 0x1000).2.2 (3 * PGSIZE)).2.1.frames
      0x5000 100 = stC5.frames 0x1000 100 ∧
    (∃ pte2,
      (swappage_in (swappageout stC5 pgdirC5 (3 * PGSIZE) 0x1000).2.1 0
        (swappageout stC5 pgdirC5 (3 * PGSIZE) 0x1000).2.2 (3 * PGSIZE)).2.2
        (3 * PGSIZE / PGSIZE) = some pte2 ∧
      pte2 &&& 0xFFF = ((0x1000 ||| 0x27) &&& 0xFFF) ||| PTE_P) ∧
    ((swappage_in (swappageout stC5 pgdirC5 (3 * PGSIZE) 0x1000).2.1 0
      (swappageout stC5 pgdirC5 (3 * PGSIZE) 0x1000).2.2 (3 * PGSIZE)).2.1.slots 0).is_free
      = true := by
  obtain ⟨h1, h2, h3, h4, h5⟩ := swap_roundtrip stC5 pgdirC5 0 (3 * PGSIZE) 0x1000 0
    (0x1000 ||| 0x27) 0x5000 [] (by decide) (by decide) (by decide) (by decide) rfl
    (by decide)
  exact ⟨h1, h2, h3 100 (by decide), h4, h5⟩

/-! ## Claim C10: the free-slot/permission invariant -/

/-- Every slot marked free has `page_perm = 0`. -/
def SlotInv (slots : SlotTable) : Prop :=
  ∀ i, i < NSLOTS → (slots i).is_free = true → (slots i).page_perm = 0

lemma SlotInv_freeslot (st : SlotTable) (k : Nat) (h : SlotInv st) :
    SlotInv (freeslot st k) := by
  intro i hi hfree
  by_cases hc : k < NSLOTS ∧ i = k
  · simp only [freeslot, if_pos hc]
  · simp only [freeslot, if_neg hc] at hfree ⊢
    exact h i hi hfree

/-- A successful `findslot` yields an invariant-preserving table whose
returned slot is marked used. -/
lemma findslot_branch_facts (stbl : SlotTable) (child : Nat) (slots1 : SlotTable)
    (heq : findslot stbl = (some child, slots1)) (h : SlotInv stbl) :
    SlotInv slots1 ∧ (slots1 child).is_free = false := by
  have h1 : (findslot stbl).1 = some child := by rw [heq]
  obtain ⟨heq2, hlt, _, _⟩ := findslot_eq_some stbl child h1
  rw [heq, Prod.mk.injEq] at heq2
  obtain ⟨_, h2⟩ := heq2
  constructor
  · intro i hi hifree
    simp only [h2] at hifree ⊢
    by_cases hc : i = child
    · rw [if_pos hc] at hifree
      cases hifree
    · rw [if_neg hc] at hifree ⊢
      exact h i hi hifree
  · simp [h2]

lemma SlotInv_findslot (st : SlotTable) (h : SlotInv st) : SlotInv (findslot st).2 := by
  rcases heq : findslot st with ⟨o, slots1⟩
  cases o with
  | none =>
    have := (findslot_eq_none st (by rw [heq])).1
    rw [heq, Prod.mk.injEq] at this
    rw [this.2]
    exact h
  | some s =>
    exact (findslot_branch_facts st s slots1 heq h).1

lemma swappageout_slots_inv (st : KState) (pgdir : PgDir) (va pa : Nat)
    (h : SlotInv st.slots) : SlotInv (swappageout st pgdir va pa).2.1.slots := by
  rw [swappageout]
  split
  · exact h
  · rename_i slot_index slots1 heq
    obtain ⟨hinv1, hused1⟩ := findslot_branch_facts st.slots slot_index slots1 heq h
    split
    · exact hinv1
    · split
      · intro i hi hifree
        by_cases hc : i = slot_index
        · subst hc
          simp only [if_pos rfl] at hifree
          rw [hused1] at hifree
          cases hifree
        · simp only [if_neg hc] at hifree ⊢
          exact hinv1 i hi hifree
      · exact hinv1

lemma swapoutLoop_slots_inv (vidx : Nat) : ∀ fuel swapped st, SlotInv st.slots →
    SlotInv (swapoutLoop vidx fuel swapped st).slots := by
  intro fuel
  induction fuel with
  | zero => intro swapped st h; exact h
  | succ n ih =>
    intro swapped st h
    simp only [swapoutLoop]
    split
    · exact h
    · split
      · exact h
      · split
        · exact h
        · apply ih
          split
          · show SlotInv (swappageout _ _ _ _).2.1.slots
            exact swappageout_slots_inv _ _ _ _ h
          · show SlotInv (swappageout _ _ _ _).2.1.slots
            exact swappageout_slots_inv _ _ _ _ h

lemma swapout_slots_inv (st : KState) (h : SlotInv st.slots) :
    SlotInv (swapout st).slots := by
  rw [swapout]
  split
  · exact h
  · exact swapoutLoop_slots_inv _ _ _ _ h

lemma checkAswap_slots_inv (st : KState) (h : SlotInv st.slots) :
    SlotInv (checkAswap st).slots := by
  rw [checkAswap]
  split
  · show SlotInv (swapout st).slots
    exact swapout_slots_inv st h
  · exact h

lemma swappage_in_slots_inv (st : KState) (cur : Nat) (pgdir : PgDir) (va : Nat)
    (h : SlotInv st.slots) : SlotInv (swappage_in st cur pgdir va).2.1.slots := by
  rw [swappage_in]
  split
  · exact h
  · rename_i pte heq
    split
    · exact h
    · by_cases hval : NSLOTS ≤ PTE_ADDR pte >>> 12 ∨
        (st.slots (PTE_ADDR pte >>> 12)).is_free = true
      · simp only [if_pos hval]
        exact h
      · simp only [if_neg hval]
        rcases hfl : st.freeList with _ | ⟨pa0, rest⟩
        · simp only [kallocK, hfl]
          rcases hfl2 : (checkAswap st).freeList with _ | ⟨pa1, rest1⟩
          · simp only [hfl2]
            exact checkAswap_slots_inv st h
          · simp only [hfl2, swapInFinish]
            exact SlotInv_freeslot _ _ (checkAswap_slots_inv st h)
        · simp only [kallocK, hfl, swapInFinish]
          exact SlotInv_freeslot _ _ h

lemma swapFree_slots_inv (pgdir : PgDir) (slots : SlotTable) (h : SlotInv slots) :
    SlotInv (swapFree pgdir slots).1 := by
  simp only [swapFree]
  generalize List.range NPGS = l
  induction l generalizing slots with
  | nil => exact h
  | cons pn rest ih =>
    apply ih
    cases hpg : pgdir pn with
    | none =>
      simp only [swapFreeStep, hpg]
      exact h
    | some pte =>
      simp only [swapFreeStep, hpg]
      split
      · split
        · exact SlotInv_freeslot _ _ h
        · exact h
      · exact h

lemma slotCopy_slots_inv (st : KState) (ps child : Nat) (h : SlotInv st.slots)
    (hchild : (st.slots child).is_free = false) :
    SlotInv (slotCopy st ps child).slots := by
  intro i hi hifree
  simp only [slotCopy] at hifree ⊢
  by_cases hc : i = child
  · subst hc
    rw [if_pos rfl] at hifree
    rw [hchild] at hifree
    cases hifree
  · rw [if_neg hc] at hifree ⊢
    exact h i hi hifree

lemma duplicateslot_slots_inv (st : KState) (ps : Nat) (h : SlotInv st.slots) :
    SlotInv (duplicateslot st ps).2.slots := by
  rw [duplicateslot]
  split
  · exact h
  · rcases heq1 : findslot st.slots with ⟨o1, slots1⟩
    cases o1 with
    | some child =>
      obtain ⟨hinv1, hused1⟩ := findslot_branch_facts st.slots child slots1 heq1 h
      apply slotCopy_slots_inv
      · exact hinv1
      · exact hused1
    | none =>
      rcases heq2 : findslot (checkAswap st).slots with ⟨o2, slots2⟩
      cases o2 with
      | some child =>
        obtain ⟨hinv2, hused2⟩ := findslot_branch_facts (checkAswap st).slots child slots2
          heq2 (checkAswap_slots_inv st h)
        apply slotCopy_slots_inv
        · exact hinv2
        · exact hused2
      | none =>
        rcases heq3 : findslot (checkAswap (checkAswap st)).slots with ⟨o3, slots3⟩
        cases o3 with
        | some child =>
          obtain ⟨hinv3, hused3⟩ := findslot_branch_facts
            (checkAswap (checkAswap st)).slots child slots3 heq3
            (checkAswap_slots_inv _ (checkAswap_slots_inv st h))
          apply slotCopy_slots_inv
          · exact hinv3
          · exact hused3
        | none =>
          exact checkAswap_slots_inv _ (checkAswap_slots_inv st h)

/-- C10: the invariant "every free slot has `page_perm = 0`" is established
by `swapInit` and preserved by every operation that touches slot state:
`findslot`, `freeslot`, `duplicateslot`, `swappageout`, `swappage_in`
(including their embedded `checkAswap`/`swapout` pressure retries) and
`swapFree`: `page_perm` is written only on slots already marked used, and
`freeslot` clears it when freeing. -/
theorem slot_inv_preserved :
    SlotInv swapInitSlots ∧
    (∀ st : SlotTable, SlotInv st → SlotInv (findslot st).2) ∧
    (∀ (st : SlotTable) (i : Nat), SlotInv st → SlotInv (freeslot st i)) ∧
    (∀ (st : KState) (pgdir : PgDir) (va pa : Nat), SlotInv st.slots →
      SlotInv (swappageout st pgdir va pa).2.1.slots) ∧
    (∀ (st : KState) (cur : Nat) (pgdir : PgDir) (va : Nat), SlotInv st.slots →
      SlotInv (swappage_in st cur pgdir va).2.1.slots) ∧
    (∀ (pgdir : PgDir) (slots : SlotTable), SlotInv slots →
      SlotInv (swapFree pgdir slots).1) ∧
    (∀ (st : KState) (ps : Nat), SlotInv st.slots →
      SlotInv (duplicateslot st ps).2.slots) :=
  ⟨fun _ _ _ => rfl, SlotInv_findslot, fun st i h => SlotInv_freeslot st i h,
    swappageout_slots_inv, swappage_in_slots_inv, swapFree_slots_inv,
    duplicateslot_slots_inv⟩

/-- Witness for C10: the invariant holds of the boot table and is carried
through a concrete allocate / evict / free sequence. -/
theorem slot_inv_preserved_witness :
    SlotInv swapInitSlots ∧
    SlotInv (findslot swapInitSlots).2 ∧
    SlotInv (freeslot (findslot swapInitSlots).2 0) ∧
    SlotInv (swappageout exStW pgdirW4 (3 * PGSIZE) 0x1000).2.1.slots := by
  have h0 : SlotInv swapInitSlots := by
    intro i _ _
    rfl
  exact ⟨slot_inv_preserved.1,
    slot_inv_preserved.2.1 swapInitSlots h0,
    slot_inv_preserved.2.2.1 (findslot swapInitSlots).2 0
      (slot_inv_preserved.2.1 swapInitSlots h0),
    slot_inv_preserved.2.2.2.1 exStW pgdirW4 (3 * PGSIZE) 0x1000 h0⟩

end PageSwap
